import Mathlib

/-!
Verification of the max-flow / min-cut linear-programming formulation of
`src/week2/Max Flow + Min Cut.ipynb`.

The notebook defines two functions:

  * `max_flow(nodes, arcs, capacity)` builds the LP
      maximise   sum of flow[a] over arcs a whose tail is the literal "s"
      subject to 0 <= flow[a] <= capacity[a]            for every arc a
                 outflow(j) = inflow(j)                 for every j in nodes
                                                        with j not in ("s","t")
    and, when the solver status is OPTIMAL, prints the arcs with positive flow.

  * `min_cut(nodes, arcs, capacity)` creates variables `remove[a] >= 0` for
    every arc and `connect[i] >= 0` for every node i in nodes with i not in
    ("s","t"), builds the LP
      minimise   sum of capacity[a] * remove[a]
      subject to remove[(s,j)] + connect[j] >= 1              if the tail is "s"
                 remove[(i,t)] - connect[i] >= 0              else if head is "t"
                 remove[(i,j)] + connect[j] - connect[i] >= 0 otherwise
    and, when the solver status is OPTIMAL, prints the arcs with remove > 0.5.
    Looking up `connect[x]` for x outside the interior-node list raises a
    Python KeyError, which `minCutBuildOk` records.

Flows, cut variables and capacities are modelled over ℚ; feasibility and
optimality of the two LPs are stated directly over these definitions.
-/

abbrev Node := String

abbrev Arc := String × String

/-- The directed capacitated network: the data `max_flow` / `min_cut` receive,
together with the distinguished `source` and `sink` of the spec's data model. -/
structure Network where
  nodes : List Node
  arcs : List Arc
  capacity : Arc → ℚ
  source : Node
  sink : Node

/-- The spec's network invariant: finite node set without repeats, unique arcs
whose endpoints lie in the node set and are distinct, non-negative capacities,
and distinct source and sink belonging to the node set. -/
def ValidNetwork (net : Network) : Prop :=
  net.nodes.Nodup ∧ net.arcs.Nodup ∧
  (∀ a ∈ net.arcs, a.1 ∈ net.nodes ∧ a.2 ∈ net.nodes ∧ a.1 ≠ a.2) ∧
  (∀ a ∈ net.arcs, 0 ≤ net.capacity a) ∧
  net.source ∈ net.nodes ∧ net.sink ∈ net.nodes ∧ net.source ≠ net.sink

instance (net : Network) : Decidable (ValidNetwork net) := by
  unfold ValidNetwork; infer_instance

/-- `flow.sum(v, '*')` of the notebook: total flow on arcs whose tail is `v`. -/
def outSum (arcs : List Arc) (f : Arc → ℚ) (v : Node) : ℚ :=
  ((arcs.filter (fun a => a.1 == v)).map f).sum

/-- `flow.sum('*', v)` of the notebook: total flow on arcs whose head is `v`. -/
def inSum (arcs : List Arc) (f : Arc → ℚ) (v : Node) : ℚ :=
  ((arcs.filter (fun a => a.2 == v)).map f).sum

/-- The objective `max_flow` sets: the sum of `flow[(i,j)]` over the arcs with
`i == "s"` (the literal string, not the network's declared source). -/
def flowObj (arcs : List Arc) (f : Arc → ℚ) : ℚ :=
  outSum arcs f "s"

/-- The constraint set of the LP `max_flow` builds: variable lower bound 0 from
`addVars`, the arc-capacity constraints, and flow conservation at every node
other than the literals "s" and "t" (the condition `j not in ('s','t')`). -/
def MaxFlowFeasible (net : Network) (f : Arc → ℚ) : Prop :=
  (∀ a ∈ net.arcs, 0 ≤ f a ∧ f a ≤ net.capacity a) ∧
  (∀ j ∈ net.nodes, j ≠ "s" → j ≠ "t" → outSum net.arcs f j = inSum net.arcs f j)

instance (net : Network) (f : Arc → ℚ) : Decidable (MaxFlowFeasible net f) := by
  unfold MaxFlowFeasible; infer_instance

/-- `v` is the optimal objective value of the LP `max_flow` builds: some
feasible flow attains `v` and no feasible flow exceeds it. -/
def MaxFlowOpt (net : Network) (v : ℚ) : Prop :=
  (∃ f, MaxFlowFeasible net f ∧ flowObj net.arcs f = v) ∧
  (∀ f, MaxFlowFeasible net f → flowObj net.arcs f ≤ v)

/-- An optimal solution of the LP `max_flow` builds: what the solver hands back
when it reports OPTIMAL, and hence the flow assignment the code reports. -/
def MaxFlowOptSol (net : Network) (f : Arc → ℚ) : Prop :=
  MaxFlowFeasible net f ∧
  ∀ g, MaxFlowFeasible net g → flowObj net.arcs g ≤ flowObj net.arcs f

/-- The index list of the `connect` variables of `min_cut`:
`(i for i in nodes if i not in ("s", "t"))`. -/
def interiorNodes (nodes : List Node) : List Node :=
  nodes.filter (fun i => !(i == "s" || i == "t"))

/-- Whether `min_cut`'s constraint loop runs to completion: every lookup
`connect[x]` it performs has `x` among the `connect` keys.  When this is
false the Python code raises a KeyError before any LP is built. -/
def minCutBuildOk (net : Network) : Bool :=
  net.arcs.all (fun a =>
    if a.1 == "s" then (interiorNodes net.nodes).contains a.2
    else if a.2 == "t" then (interiorNodes net.nodes).contains a.1
    else (interiorNodes net.nodes).contains a.2 && (interiorNodes net.nodes).contains a.1)

/-- The constraint set of the LP `min_cut` builds: lower bound 0 on every
`remove` and `connect` variable (the `addVars` default), and for each arc the
constraint chosen by the `if i == "s" / elif j == "t" / else` branches. -/
def MinCutFeasible (net : Network) (r : Arc → ℚ) (z : Node → ℚ) : Prop :=
  (∀ a ∈ net.arcs, 0 ≤ r a) ∧
  (∀ i ∈ interiorNodes net.nodes, 0 ≤ z i) ∧
  (∀ a ∈ net.arcs,
    if a.1 = "s" then 1 ≤ r a + z a.2
    else if a.2 = "t" then 0 ≤ r a - z a.1
    else 0 ≤ r a + z a.2 - z a.1)

instance (net : Network) (r : Arc → ℚ) (z : Node → ℚ) :
    Decidable (MinCutFeasible net r z) := by
  unfold MinCutFeasible; infer_instance

/-- The objective `min_cut` minimises: `sum of capacity[a] * remove[a]`
(the `obj=capacity` argument of `addVars`). -/
def cutObj (net : Network) (r : Arc → ℚ) : ℚ :=
  (net.arcs.map (fun a => net.capacity a * r a)).sum

/-- `w` is the optimal objective value of the LP `min_cut` builds: the
constraint construction runs to completion, some feasible `(remove, connect)`
assignment attains `w`, and no feasible assignment is below it. -/
def MinCutOpt (net : Network) (w : ℚ) : Prop :=
  minCutBuildOk net = true ∧
  (∃ r z, MinCutFeasible net r z ∧ cutObj net r = w) ∧
  (∀ r z, MinCutFeasible net r z → w ≤ cutObj net r)

/-- The spec's `FlowAssignment` feasibility invariant (§3), stated with the
network's declared `source` and `sink`: capacity bounds on every arc, and
inflow = outflow at every node other than `source` and `sink`. -/
def SpecFlowInvariant (net : Network) (f : Arc → ℚ) : Prop :=
  (∀ a ∈ net.arcs, 0 ≤ f a ∧ f a ≤ net.capacity a) ∧
  (∀ j ∈ net.nodes, j ≠ net.source → j ≠ net.sink →
    inSum net.arcs f j = outSum net.arcs f j)

/-- The failure cases of the Graph Model's `build` (§4.1 / §7). -/
inductive InvalidNetworkError where
  | sourceEqSink
  | sourceMissing
  | sinkMissing
  | negativeCapacity
  | endpointMissing
  | duplicateArc
deriving DecidableEq

/-- Modelled from the spec: the repository has no `build` function (the
notebook passes `nodes`, `arcs`, `capacity` straight to the solver calls), so
the Graph Model operation `build(nodes, arcs, capacity, source, sink)` of §4.1
is modelled from the spec's words: it fails with `InvalidNetworkError` if
`source == sink`, if `source` or `sink` is absent from `nodes`, if any arc
capacity is negative (every ℚ value is finite), if any arc references a node
outside `nodes`, or if a duplicate arc is supplied; otherwise it returns the
validated `Network`. -/
def build (nodes : List Node) (arcs : List Arc) (capacity : Arc → ℚ)
    (source snk : Node) : Except InvalidNetworkError Network :=
  if source = snk then .error .sourceEqSink
  else if source ∉ nodes then .error .sourceMissing
  else if snk ∉ nodes then .error .sinkMissing
  else if ∃ a ∈ arcs, capacity a < 0 then .error .negativeCapacity
  else if ∃ a ∈ arcs, ¬(a.1 ∈ nodes ∧ a.2 ∈ nodes) then .error .endpointMissing
  else if ¬ arcs.Nodup then .error .duplicateArc
  else .ok ⟨nodes, arcs, capacity, source, snk⟩

/-- The solver statuses the notebook's `m.status == GRB.OPTIMAL` check can
meet. -/
inductive GRBStatus where
  | optimal
  | infeasible
  | unbounded
  | interrupted
deriving DecidableEq

/-- A Python call's observable outcome: a normal return of a value, or a
raised exception. -/
inductive PyOutcome (α : Type) where
  | ret (value : α)
  | raised (msg : String)
deriving DecidableEq

/-- The post-solve step of `max_flow`, from the code: when the status is
OPTIMAL it reports the arcs with positive flow and their values; on any other
status the `if` has no `else`, so the function returns normally having
produced nothing, and raises no exception. -/
def maxFlowReport (arcs : List Arc) (status : GRBStatus) (sol : Arc → ℚ) :
    PyOutcome (Option (List (Arc × ℚ))) :=
  .ret (if status = .optimal then
          some ((arcs.filter (fun a => decide (0 < sol a))).map (fun a => (a, sol a)))
        else none)

/-- The post-solve step of `min_cut`, from the code: when the status is
OPTIMAL it reports the arcs with `remove > 0.5` and their capacities; on any
other status it returns normally with nothing, raising no exception. -/
def minCutReport (arcs : List Arc) (capacity : Arc → ℚ) (status : GRBStatus)
    (sol : Arc → ℚ) : PyOutcome (Option (List (Arc × ℚ))) :=
  .ret (if status = .optimal then
          some ((arcs.filter (fun a => decide ((1 : ℚ)/2 < sol a))).map
            (fun a => (a, capacity a)))
        else none)

/-- Reachability by a step relation `R` from a fixed start node. -/
inductive ReachesBy (R : Node → Node → Prop) (src : Node) : Node → Prop where
  | refl : ReachesBy R src src
  | step {u v : Node} : ReachesBy R src u → R u v → ReachesBy R src v

/-- One step along an arc of the network. -/
def arcStep (arcs : List Arc) (u v : Node) : Prop := (u, v) ∈ arcs

/-- The sink cannot be reached from the source along directed arcs. -/
def SinkUnreachable (net : Network) : Prop :=
  ¬ ReachesBy (arcStep net.arcs) net.source net.sink

/-- One step of the residual graph of flow `f`: a forward arc with spare
capacity, or a backward traversal of an arc carrying positive flow. -/
def resEdge (net : Network) (f : Arc → ℚ) (u v : Node) : Prop :=
  ((u, v) ∈ net.arcs ∧ f (u, v) < net.capacity (u, v)) ∨
  ((v, u) ∈ net.arcs ∧ 0 < f (v, u))

/-- The consecutive pairs of a vertex list. -/
def pathPairs (vs : List Node) : List (Node × Node) := vs.zip vs.tail

/-- `vs` is a directed path from `src` to `snk` along arcs of `arcs`. -/
def IsArcPath (arcs : List Arc) (src snk : Node) (vs : List Node) : Prop :=
  vs.head? = some src ∧ vs.getLast? = some snk ∧ ∀ p ∈ pathPairs vs, p ∈ arcs

/-- The spec's cut notion: removing `cs` disconnects `src` from `snk`, i.e.
every directed arc path from `src` to `snk` uses an arc of `cs`. -/
def SeparatesCut (arcs : List Arc) (src snk : Node) (cs : List Arc) : Prop :=
  ∀ vs, IsArcPath arcs src snk vs → ∃ p ∈ pathPairs vs, p ∈ cs

/-- Minimum of a list of rationals (0 for the empty list). -/
def listMin : List ℚ → ℚ
  | [] => 0
  | [x] => x
  | x :: y :: l => min x (listMin (y :: l))

/-- Residual capacity of a residual step `p` for flow `f`: spare capacity if
`p` is a forward arc with spare capacity, otherwise the flow on the reversed
arc. -/
def stepTerm (net : Network) (f : Arc → ℚ) (p : Node × Node) : ℚ :=
  if p ∈ net.arcs ∧ f p < net.capacity p then net.capacity p - f p
  else f (p.2, p.1)

/-- The change of flow effected by pushing `d` units along the residual steps
`ps`: `+d` on a step used as a forward arc, `-d` on the reversed arc of a step
used backward. -/
def pathDelta (net : Network) (f : Arc → ℚ) (d : ℚ) :
    List (Node × Node) → Arc → ℚ
  | [] => fun _ => 0
  | p :: ps => fun a =>
      pathDelta net f d ps a +
        (if p ∈ net.arcs ∧ f p < net.capacity p then (if a = p then d else 0)
         else (if a = (p.2, p.1) then -d else 0))

/-- Capacity function from an association list, `0` for arcs not listed
(the notebook stores capacities as a Python dict). -/
def capOf : List (Arc × ℚ) → Arc → ℚ
  | [], _ => 0
  | p :: l, a => if p.1 = a then p.2 else capOf l a

/-- The capacity dict of the notebook's example network. -/
def exampleCaps : List (Arc × ℚ) :=
  [(("s", "A"), 100), (("s", "B"), 150), (("A", "B"), 120), (("A", "C"), 90),
   (("B", "D"), 110), (("C", "D"), 120), (("C", "t"), 140), (("D", "t"), 90)]

/-- The notebook's example network: `nodes = ['s','A','B','C','D','t']` and
`arcs = capacity.keys()`. -/
def exampleNet : Network where
  nodes := ["s", "A", "B", "C", "D", "t"]
  arcs := exampleCaps.map Prod.fst
  capacity := capOf exampleCaps
  source := "s"
  sink := "t"

/-- An optimal flow of the example network (value 180). -/
def exampleFlow : Arc → ℚ :=
  capOf [(("s", "A"), 90), (("s", "B"), 90), (("A", "C"), 90),
         (("B", "D"), 90), (("C", "t"), 90), (("D", "t"), 90)]

/-- An optimal `remove` assignment of the example network (value 180):
the cut `{(A,C), (D,t)}`. -/
def exampleRemove : Arc → ℚ :=
  capOf [(("A", "C"), 1), (("D", "t"), 1)]

/-- The `connect` assignment matching `exampleRemove`. -/
def exampleConnect : Node → ℚ :=
  fun i => if i = "A" ∨ i = "B" ∨ i = "D" then 1 else 0

/-- Scenario 2 of the spec (§8): the two-node network with the single arc
`(s, t)` of capacity 50. -/
def singleArcNet : Network where
  nodes := ["s", "t"]
  arcs := [("s", "t")]
  capacity := capOf [(("s", "t"), 50)]
  source := "s"
  sink := "t"

/-- A valid network whose sink is unreachable from its source but whose
max-flow LP has optimal value 10: flow circulates through the arcs
`(s,a)` and `(a,s)`, and the objective only adds up flow leaving "s". -/
def loopNet : Network where
  nodes := ["s", "a", "t"]
  arcs := [("s", "a"), ("a", "s")]
  capacity := capOf [(("s", "a"), 10), (("a", "s"), 10)]
  source := "s"
  sink := "t"

/-- A valid network whose declared source and sink are "x" and "y" while its
arc joins the literally-named nodes "s" and "t". -/
def renamedNet : Network where
  nodes := ["s", "t", "x", "y"]
  arcs := [("s", "t")]
  capacity := capOf [(("s", "t"), 5)]
  source := "x"
  sink := "y"

/-- A valid network with declared source "x" and sink "y" that also contains
nodes literally named "s" and "t" joined by a path of capacity 7. -/
def chainNet : Network where
  nodes := ["x", "s", "a", "t", "y"]
  arcs := [("s", "a"), ("a", "t")]
  capacity := capOf [(("s", "a"), 7), (("a", "t"), 7)]
  source := "x"
  sink := "y"

/-- A valid two-node network with no node named "s" or "t": its single arc
`(x, y)` crosses from source to sink and has positive capacity. -/
def xyNet : Network where
  nodes := ["x", "y"]
  arcs := [("x", "y")]
  capacity := capOf [(("x", "y"), 5)]
  source := "x"
  sink := "y"

/-- The arcless two-node network: sink trivially unreachable. -/
def emptyNet : Network where
  nodes := ["s", "t"]
  arcs := []
  capacity := fun _ => 0
  source := "s"
  sink := "t"

/-! ## List-sum helpers -/

lemma list_sum_map_add {α : Type} (l : List α) (φ ψ : α → ℚ) :
    (l.map (fun x => φ x + ψ x)).sum = (l.map φ).sum + (l.map ψ).sum := by
  induction l with
  | nil => simp
  | cons b bs ih => simp [ih]; ring

lemma list_sum_map_sub {α : Type} (l : List α) (φ ψ : α → ℚ) :
    (l.map (fun x => φ x - ψ x)).sum = (l.map φ).sum - (l.map ψ).sum := by
  induction l with
  | nil => simp
  | cons b bs ih => simp [ih]; ring

lemma list_sum_ite_eq {α : Type} [DecidableEq α] (l : List α) (hl : l.Nodup)
    (x : α) (q : α → ℚ) :
    (l.map (fun v => if x = v then q v else 0)).sum = if x ∈ l then q x else 0 := by
  induction l with
  | nil => simp
  | cons b bs ih =>
    rcases List.nodup_cons.mp hl with ⟨hb, hbs⟩
    by_cases hxb : x = b
    · subst hxb
      simp only [List.map_cons, List.sum_cons, if_pos rfl, ih hbs]
      simp [hb]
    · simp only [List.map_cons, List.sum_cons, if_neg hxb, ih hbs, List.mem_cons]
      simp [Ne.symm, hxb]

lemma list_sum_nonneg {α : Type} (l : List α) (φ : α → ℚ)
    (h : ∀ x ∈ l, 0 ≤ φ x) : 0 ≤ (l.map φ).sum := by
  induction l with
  | nil => simp
  | cons b bs ih =>
    simp only [List.map_cons, List.sum_cons]
    have hb := h b (List.mem_cons_self b bs)
    have hbs := ih (fun x hx => h x (List.mem_cons_of_mem b hx))
    linarith

lemma list_sum_le_sum {α : Type} (l : List α) (φ ψ : α → ℚ)
    (h : ∀ x ∈ l, φ x ≤ ψ x) : (l.map φ).sum ≤ (l.map ψ).sum := by
  induction l with
  | nil => simp
  | cons b bs ih =>
    simp only [List.map_cons, List.sum_cons]
    have hb := h b (List.mem_cons_self b bs)
    have hbs := ih (fun x hx => h x (List.mem_cons_of_mem b hx))
    linarith

lemma outSum_cons (a : Arc) (arcs : List Arc) (f : Arc → ℚ) (v : Node) :
    outSum (a :: arcs) f v = (if a.1 = v then f a else 0) + outSum arcs f v := by
  by_cases h : a.1 = v <;> simp [outSum, List.filter_cons, h]

lemma inSum_cons (a : Arc) (arcs : List Arc) (f : Arc → ℚ) (v : Node) :
    inSum (a :: arcs) f v = (if a.2 = v then f a else 0) + inSum arcs f v := by
  by_cases h : a.2 = v <;> simp [inSum, List.filter_cons, h]

lemma outSum_eq_zero_of_no_tail (arcs : List Arc) (f : Arc → ℚ) (v : Node)
    (h : ∀ a ∈ arcs, a.1 ≠ v) : outSum arcs f v = 0 := by
  induction arcs with
  | nil => simp [outSum]
  | cons b bs ih =>
    rw [outSum_cons, if_neg (h b (List.mem_cons_self b bs)),
      ih (fun a ha => h a (List.mem_cons_of_mem b ha))]
    ring

lemma inSum_eq_zero_of_no_head (arcs : List Arc) (f : Arc → ℚ) (v : Node)
    (h : ∀ a ∈ arcs, a.2 ≠ v) : inSum arcs f v = 0 := by
  induction arcs with
  | nil => simp [inSum]
  | cons b bs ih =>
    rw [inSum_cons, if_neg (h b (List.mem_cons_self b bs)),
      ih (fun a ha => h a (List.mem_cons_of_mem b ha))]
    ring

/-- Regrouping a sum over arcs as a sum over nodes: each arc's contribution
`f a * (g tail - g head)` lands on its two endpoints. -/
lemma sum_arcs_regroup (nodes : List Node) (arcs : List Arc) (hn : nodes.Nodup)
    (hmem : ∀ a ∈ arcs, a.1 ∈ nodes ∧ a.2 ∈ nodes) (f : Arc → ℚ) (g : Node → ℚ) :
    (arcs.map (fun a => f a * (g a.1 - g a.2))).sum
      = (nodes.map (fun v => g v * (outSum arcs f v - inSum arcs f v))).sum := by
  induction arcs with
  | nil => simp [outSum, inSum]
  | cons b bs ih =>
    have hb := hmem b (List.mem_cons_self b bs)
    have hbs : ∀ a ∈ bs, a.1 ∈ nodes ∧ a.2 ∈ nodes :=
      fun a ha => hmem a (List.mem_cons_of_mem b ha)
    have expand : ∀ v : Node,
        g v * (outSum (b :: bs) f v - inSum (b :: bs) f v)
          = (g v * (outSum bs f v - inSum bs f v))
            + ((if b.1 = v then g v * f b else 0) - (if b.2 = v then g v * f b else 0)) := by
      intro v
      rw [outSum_cons, inSum_cons]
      by_cases h1 : b.1 = v <;> by_cases h2 : b.2 = v <;> simp [h1, h2] <;> ring
    calc (List.map (fun a => f a * (g a.1 - g a.2)) (b :: bs)).sum
        = f b * (g b.1 - g b.2) + (bs.map (fun a => f a * (g a.1 - g a.2))).sum := by
          simp
      _ = f b * (g b.1 - g b.2)
            + (nodes.map (fun v => g v * (outSum bs f v - inSum bs f v))).sum := by
          rw [ih hbs]
      _ = (nodes.map (fun v => g v * (outSum (b :: bs) f v - inSum (b :: bs) f v))).sum := by
          have : (nodes.map (fun v => g v * (outSum (b :: bs) f v - inSum (b :: bs) f v))).sum
              = (nodes.map (fun v => g v * (outSum bs f v - inSum bs f v))).sum
                + ((nodes.map (fun v => if b.1 = v then g v * f b else 0)).sum
                   - (nodes.map (fun v => if b.2 = v then g v * f b else 0)).sum) := by
            calc (nodes.map (fun v => g v * (outSum (b :: bs) f v - inSum (b :: bs) f v))).sum
                = (nodes.map (fun v => (g v * (outSum bs f v - inSum bs f v))
                    + ((if b.1 = v then g v * f b else 0)
                       - (if b.2 = v then g v * f b else 0)))).sum := by
                  congr 1
                  exact List.map_congr_left (fun v _ => expand v)
              _ = _ := by
                  rw [list_sum_map_add, list_sum_map_sub]
          rw [this, list_sum_ite_eq nodes hn b.1 (fun v => g v * f b),
            list_sum_ite_eq nodes hn b.2 (fun v => g v * f b),
            if_pos hb.1, if_pos hb.2]
          ring

/-! ## Consequences of `minCutBuildOk` -/

lemma mem_interiorNodes {nodes : List Node} {i : Node} :
    i ∈ interiorNodes nodes ↔ i ∈ nodes ∧ i ≠ "s" ∧ i ≠ "t" := by
  simp [interiorNodes, List.mem_filter, not_or]

lemma minCutBuildOk_cases {net : Network} (hok : minCutBuildOk net = true)
    {a : Arc} (ha : a ∈ net.arcs) :
    (a.1 = "s" → a.2 ∈ interiorNodes net.nodes) ∧
    (a.1 ≠ "s" → a.2 = "t" → a.1 ∈ interiorNodes net.nodes) ∧
    (a.1 ≠ "s" → a.2 ≠ "t" →
      a.2 ∈ interiorNodes net.nodes ∧ a.1 ∈ interiorNodes net.nodes) := by
  have h := (List.all_eq_true.mp hok) a ha
  refine ⟨fun h1 => ?_, fun h1 h2 => ?_, fun h1 h2 => ?_⟩
  · rw [if_pos (by simp [h1])] at h
    exact List.mem_of_elem_eq_true h
  · rw [if_neg (by simp [h1]), if_pos (by simp [h2])] at h
    exact List.mem_of_elem_eq_true h
  · rw [if_neg (by simp [h1]), if_neg (by simp [h2])] at h
    simp only [Bool.and_eq_true] at h
    exact ⟨List.mem_of_elem_eq_true h.1, List.mem_of_elem_eq_true h.2⟩

lemma buildOk_no_head_s {net : Network} (hok : minCutBuildOk net = true) :
    ∀ a ∈ net.arcs, a.2 ≠ "s" := by
  intro a ha h2
  rcases minCutBuildOk_cases hok ha with ⟨c1, c2, c3⟩
  by_cases h1 : a.1 = "s"
  · exact (mem_interiorNodes.mp (c1 h1)).2.1 h2
  · have ht : a.2 ≠ "t" := by rw [h2]; decide
    exact (mem_interiorNodes.mp (c3 h1 ht).1).2.1 h2

lemma buildOk_no_tail_t {net : Network} (hok : minCutBuildOk net = true) :
    ∀ a ∈ net.arcs, a.1 ≠ "t" := by
  intro a ha h1
  rcases minCutBuildOk_cases hok ha with ⟨c1, c2, c3⟩
  have hs : a.1 ≠ "s" := by rw [h1]; decide
  by_cases h2 : a.2 = "t"
  · exact (mem_interiorNodes.mp (c2 hs h2)).2.2 h1
  · exact (mem_interiorNodes.mp (c3 hs h2).2).2.2 h1

/-! ## Weak duality -/

/-- The node potential induced by a `connect` assignment: 1 at the literal
source "s", 0 at the literal sink "t", `z` elsewhere. -/
def zhat (z : Node → ℚ) : Node → ℚ :=
  fun v => if v = "s" then 1 else if v = "t" then 0 else z v

lemma perArc_bound {net : Network} {r : Arc → ℚ} {z : Node → ℚ}
    (hok : minCutBuildOk net = true) (hrz : MinCutFeasible net r z)
    {f : Arc → ℚ} (hf : ∀ a ∈ net.arcs, 0 ≤ f a ∧ f a ≤ net.capacity a) :
    ∀ a ∈ net.arcs, f a * (zhat z a.1 - zhat z a.2) ≤ net.capacity a * r a := by
  intro a ha
  obtain ⟨hf0, hfc⟩ := hf a ha
  have hr0 : 0 ≤ r a := hrz.1 a ha
  have hcon := hrz.2.2 a ha
  have hc0 : 0 ≤ net.capacity a := le_trans hf0 hfc
  rcases minCutBuildOk_cases hok ha with ⟨c1, c2, c3⟩
  have key : zhat z a.1 - zhat z a.2 ≤ r a := by
    by_cases h1 : a.1 = "s"
    · rcases mem_interiorNodes.mp (c1 h1) with ⟨_, hs2, ht2⟩
      rw [if_pos h1] at hcon
      simp only [zhat, if_pos h1, if_neg hs2, if_neg ht2]
      linarith
    · by_cases h2 : a.2 = "t"
      · rcases mem_interiorNodes.mp (c2 h1 h2) with ⟨_, hs1, ht1⟩
        have hs2 : a.2 ≠ "s" := by rw [h2]; decide
        rw [if_neg h1, if_pos h2] at hcon
        simp only [zhat, if_neg hs1, if_neg ht1, if_neg hs2, if_pos h2]
        linarith
      · rcases c3 h1 h2 with ⟨hi2, hi1⟩
        rcases mem_interiorNodes.mp hi1 with ⟨_, hs1, ht1⟩
        rcases mem_interiorNodes.mp hi2 with ⟨_, hs2, ht2⟩
        rw [if_neg h1, if_neg h2] at hcon
        simp only [zhat, if_neg hs1, if_neg ht1, if_neg hs2, if_neg ht2]
        linarith
  rcases le_or_lt (zhat z a.1 - zhat z a.2) 0 with h | h
  · have l1 : f a * (zhat z a.1 - zhat z a.2) ≤ 0 :=
      mul_nonpos_of_nonneg_of_nonpos hf0 h
    have l2 : 0 ≤ net.capacity a * r a := mul_nonneg hc0 hr0
    linarith
  · calc f a * (zhat z a.1 - zhat z a.2)
        ≤ net.capacity a * (zhat z a.1 - zhat z a.2) :=
          mul_le_mul_of_nonneg_right hfc (le_of_lt h)
      _ ≤ net.capacity a * r a := mul_le_mul_of_nonneg_left key hc0

/-- The flow objective written as the arc sum weighted by the potential
differences of any indicator-like node function equal to 1 at "s" and 0 at
"t": a consequence of conservation at the interior nodes. -/
lemma flowObj_eq_weighted_sum {net : Network} {f : Arc → ℚ}
    (hn : net.nodes.Nodup)
    (hmem : ∀ a ∈ net.arcs, a.1 ∈ net.nodes ∧ a.2 ∈ net.nodes)
    (hnos : ∀ a ∈ net.arcs, a.2 ≠ "s")
    (hcons : ∀ j ∈ net.nodes, j ≠ "s" → j ≠ "t" →
      outSum net.arcs f j = inSum net.arcs f j)
    (g : Node → ℚ) (hgs : g "s" = 1) (hgt : g "t" = 0) :
    (net.arcs.map (fun a => f a * (g a.1 - g a.2))).sum = flowObj net.arcs f := by
  rw [sum_arcs_regroup net.nodes net.arcs hn hmem f g]
  have hterm : ∀ v ∈ net.nodes,
      g v * (outSum net.arcs f v - inSum net.arcs f v)
        = if "s" = v then flowObj net.arcs f else 0 := by
    intro v hv
    by_cases hs : v = "s"
    · subst hs
      rw [if_pos rfl]
      have hins : inSum net.arcs f "s" = 0 :=
        inSum_eq_zero_of_no_head net.arcs f "s" hnos
      simp [hgs, hins, flowObj]
    · rw [if_neg (fun h => hs h.symm)]
      by_cases ht : v = "t"
      · subst ht
        simp [hgt]
      · rw [hcons v hv hs ht]
        ring
  calc (net.nodes.map (fun v => g v * (outSum net.arcs f v - inSum net.arcs f v))).sum
      = (net.nodes.map (fun v => if "s" = v then flowObj net.arcs f else 0)).sum := by
        congr 1
        exact List.map_congr_left hterm
    _ = if "s" ∈ net.nodes then flowObj net.arcs f else 0 :=
        list_sum_ite_eq net.nodes hn "s" (fun _ => flowObj net.arcs f)
    _ = flowObj net.arcs f := by
        by_cases hsn : "s" ∈ net.nodes
        · rw [if_pos hsn]
        · rw [if_neg hsn]
          have : ∀ a ∈ net.arcs, a.1 ≠ "s" := by
            intro a ha h1
            exact hsn (h1 ▸ (hmem a ha).1)
          rw [flowObj, outSum_eq_zero_of_no_tail net.arcs f "s" this]

/-- Weak duality between the LP `max_flow` builds and the LP `min_cut`
builds: any feasible flow's objective is at most any feasible cut
assignment's objective. -/
lemma weak_duality {net : Network} (hval : ValidNetwork net)
    (hok : minCutBuildOk net = true) {f : Arc → ℚ} {r : Arc → ℚ} {z : Node → ℚ}
    (hf : MaxFlowFeasible net f) (hrz : MinCutFeasible net r z) :
    flowObj net.arcs f ≤ cutObj net r := by
  obtain ⟨hn, _, hmem, _, _, _, _⟩ := hval
  rw [← flowObj_eq_weighted_sum hn
    (fun a ha => ⟨(hmem a ha).1, (hmem a ha).2.1⟩)
    (buildOk_no_head_s hok) hf.2 (zhat z) (by simp [zhat]) (by simp [zhat])]
  exact list_sum_le_sum net.arcs _ _ (perArc_bound hok hrz hf.1)

/-! ## The example network: concrete optimality facts -/

lemma exampleNet_valid : ValidNetwork exampleNet := by
  constructor
  · decide
  constructor
  · decide
  constructor
  · decide
  refine ⟨?_, by decide, by decide, by decide⟩
  simp +decide [exampleNet, exampleCaps, capOf]

lemma exampleNet_buildOk : minCutBuildOk exampleNet = true := by decide

lemma exampleFlow_feasible : MaxFlowFeasible exampleNet exampleFlow := by
  constructor
  · simp +decide [exampleNet, exampleCaps, exampleFlow, capOf]
  · simp +decide [exampleNet, exampleCaps, exampleFlow, capOf, outSum, inSum]

lemma exampleFlow_obj : flowObj exampleNet.arcs exampleFlow = 180 := by
  simp +decide [flowObj, outSum, exampleNet, exampleCaps, exampleFlow, capOf]
  norm_num

lemma exampleCut_feasible :
    MinCutFeasible exampleNet exampleRemove exampleConnect := by
  refine ⟨?_, ?_, ?_⟩
  · simp +decide [exampleNet, exampleCaps, exampleRemove, capOf]
  · simp +decide [exampleNet, interiorNodes, exampleConnect]
  · simp +decide [exampleNet, exampleCaps, exampleRemove, exampleConnect, capOf]

lemma exampleCut_obj : cutObj exampleNet exampleRemove = 180 := by
  simp +decide [cutObj, exampleNet, exampleCaps, exampleRemove, capOf]
  norm_num

lemma exampleMaxOpt : MaxFlowOpt exampleNet 180 :=
  ⟨⟨exampleFlow, exampleFlow_feasible, exampleFlow_obj⟩,
   fun f hf => by
    have h := weak_duality exampleNet_valid exampleNet_buildOk hf exampleCut_feasible
    rw [exampleCut_obj] at h
    exact h⟩

lemma exampleMinOpt : MinCutOpt exampleNet 180 :=
  ⟨exampleNet_buildOk,
   ⟨exampleRemove, exampleConnect, exampleCut_feasible, exampleCut_obj⟩,
   fun r z hrz => by
    have h := weak_duality exampleNet_valid exampleNet_buildOk
      exampleFlow_feasible hrz
    rw [exampleFlow_obj] at h
    exact h⟩

/-! ## Generic sign lemmas for the objectives -/

lemma outSum_nonneg {arcs : List Arc} {f : Arc → ℚ}
    (h : ∀ a ∈ arcs, 0 ≤ f a) (v : Node) : 0 ≤ outSum arcs f v := by
  refine list_sum_nonneg _ _ (fun a ha => ?_)
  exact h a (List.mem_of_mem_filter ha)

lemma flowObj_nonneg {net : Network} {f : Arc → ℚ}
    (hf : MaxFlowFeasible net f) : 0 ≤ flowObj net.arcs f :=
  outSum_nonneg (fun a ha => (hf.1 a ha).1) "s"

lemma cutObj_nonneg {net : Network} {r : Arc → ℚ}
    (hc : ∀ a ∈ net.arcs, 0 ≤ net.capacity a) (hr : ∀ a ∈ net.arcs, 0 ≤ r a) :
    0 ≤ cutObj net r :=
  list_sum_nonneg _ _ (fun a ha => mul_nonneg (hc a ha) (hr a ha))

lemma cutObj_zero (net : Network) : cutObj net (fun _ => 0) = 0 := by
  simp [cutObj]

/-! ## The single-arc network of scenario 2 -/

lemma singleArc_optSol : MaxFlowOptSol singleArcNet (fun _ => 50) := by
  constructor
  · constructor
    · simp +decide [singleArcNet, capOf]
    · simp +decide [singleArcNet]
  · intro g hg
    have hb := (hg.1 ("s", "t") (by decide)).2
    have hcap : singleArcNet.capacity ("s", "t") = 50 := by
      simp +decide [singleArcNet, capOf]
    rw [hcap] at hb
    simp only [flowObj, outSum, singleArcNet]
    simp only [List.filter, List.map]
    norm_num
    exact hb

lemma singleArc_flowObj : flowObj singleArcNet.arcs (fun _ => 50) = 50 := by
  simp +decide [flowObj, outSum, singleArcNet]

lemma singleArc_maxOpt : MaxFlowOpt singleArcNet 50 :=
  ⟨⟨fun _ => 50, singleArc_optSol.1, singleArc_flowObj⟩,
   fun f hf => singleArc_flowObj ▸ singleArc_optSol.2 f hf⟩

/-! ## Facts about the renamed-source networks -/

lemma renamedNet_optSol : MaxFlowOptSol renamedNet (fun _ => 5) := by
  constructor
  · constructor
    · simp +decide [renamedNet, capOf]
    · simp +decide [renamedNet, outSum, inSum]
  · intro g hg
    have hb := (hg.1 ("s", "t") (by decide)).2
    have hcap : renamedNet.capacity ("s", "t") = 5 := by
      simp +decide [renamedNet, capOf]
    rw [hcap] at hb
    simp only [flowObj, outSum, renamedNet]
    simp only [List.filter, List.map]
    norm_num
    exact hb

lemma chainNet_flow_feasible : MaxFlowFeasible chainNet (capOf [(("s", "a"), 7), (("a", "t"), 7)]) := by
  constructor
  · simp +decide [chainNet, capOf]
  · simp +decide [chainNet, capOf, outSum, inSum]

lemma chainNet_flowObj : flowObj chainNet.arcs (capOf [(("s", "a"), 7), (("a", "t"), 7)]) = 7 := by
  simp +decide [flowObj, outSum, chainNet, capOf]

lemma chainNet_maxOpt : MaxFlowOpt chainNet 7 := by
  refine ⟨⟨_, chainNet_flow_feasible, chainNet_flowObj⟩, ?_⟩
  intro f hf
  have hb := (hf.1 ("s", "a") (by decide)).2
  have hcap : chainNet.capacity ("s", "a") = 7 := by
    simp +decide [chainNet, capOf]
  rw [hcap] at hb
  simp only [flowObj, outSum, chainNet]
  simp only [List.filter, List.map]
  norm_num
  exact hb

/-! ## Reachability facts for the circulation network and the arcless one -/

lemma loopNet_reach_mem :
    ∀ v, ReachesBy (arcStep loopNet.arcs) "s" v → v = "s" ∨ v = "a" := by
  intro v h
  induction h with
  | refl => exact Or.inl rfl
  | step hu r ih =>
    rcases (by simpa [loopNet, arcStep] using r) with ⟨_, h2⟩ | ⟨_, h2⟩ <;>
      simp [h2]

lemma loopNet_unreachable : SinkUnreachable loopNet := by
  intro h
  have := loopNet_reach_mem _ h
  simp [loopNet] at this

lemma loopNet_flow_feasible :
    MaxFlowFeasible loopNet (capOf [(("s", "a"), 10), (("a", "s"), 10)]) := by
  constructor
  · simp +decide [loopNet, capOf]
  · simp +decide [loopNet, capOf, outSum, inSum]

lemma loopNet_flowObj :
    flowObj loopNet.arcs (capOf [(("s", "a"), 10), (("a", "s"), 10)]) = 10 := by
  simp +decide [flowObj, outSum, loopNet, capOf]

lemma loopNet_maxOpt : MaxFlowOpt loopNet 10 := by
  refine ⟨⟨_, loopNet_flow_feasible, loopNet_flowObj⟩, ?_⟩
  intro f hf
  have hb := (hf.1 ("s", "a") (by decide)).2
  have hcap : loopNet.capacity ("s", "a") = 10 := by
    simp +decide [loopNet, capOf]
  rw [hcap] at hb
  simp only [flowObj, outSum, loopNet]
  simp only [List.filter, List.map]
  norm_num
  exact hb

lemma emptyNet_unreachable : SinkUnreachable emptyNet := by
  intro h
  have : ∀ v, ReachesBy (arcStep emptyNet.arcs) "s" v → v = "s" := by
    intro v hv
    induction hv with
    | refl => rfl
    | step hu r ih => simp [emptyNet, arcStep] at r
  have := this _ h
  simp [emptyNet] at this

/-! ## Claim C4 -/

/-- Claim C4 (code evaluation at the failing input): on the network with the
single arc `(s, t)` of capacity 50, the LP `max_flow` builds has optimal value
50, as the spec's scenario 2 requires; but `min_cut`'s constraint construction
does not run to completion: handling the arc `("s","t")` looks up
`connect["t"]`, which is not among the `connect` keys, so the Python code
raises a KeyError instead of reporting the cut `{(s,t)}` of value 50. -/
theorem claim_C4 :
    MaxFlowOpt singleArcNet 50 ∧ minCutBuildOk singleArcNet = false :=
  ⟨singleArc_maxOpt, by decide⟩

/-! ## Claim C6 -/

/-- Claim C6 counterexample: the claim fails as stated.  `renamedNet` is a
valid network whose declared source and sink are "x" and "y"; the constant-5
assignment is an optimal solution of the LP `max_flow` builds for it, yet it
violates the spec's `FlowAssignment` invariant: the node "s" differs from both
the declared source and the declared sink, but its inflow (0) differs from its
outflow (5), because the code only enforces conservation at nodes other than
the literals "s" and "t". -/
theorem claim_C6_counterexample :
    ValidNetwork renamedNet ∧ MaxFlowOptSol renamedNet (fun _ => 5) ∧
    ¬ SpecFlowInvariant renamedNet (fun _ => 5) := by
  refine ⟨?_, renamedNet_optSol, ?_⟩
  · constructor
    · decide
    constructor
    · decide
    constructor
    · decide
    refine ⟨?_, by decide, by decide, by decide⟩
    simp +decide [renamedNet, capOf]
  · rintro ⟨-, hcons⟩
    have := hcons "s" (by decide) (by decide) (by decide)
    simp +decide [renamedNet, inSum, outSum] at this

/-- Claim C6 (amended): for networks whose declared source and sink are the
literal names "s" and "t", every optimal solution of the LP `max_flow` builds
satisfies the spec's `FlowAssignment` feasibility invariant: capacity bounds
on every arc, and inflow = outflow at every node other than source and sink. -/
theorem claim_C6 (net : Network) (f : Arc → ℚ)
    (hs : net.source = "s") (ht : net.sink = "t")
    (hf : MaxFlowOptSol net f) : SpecFlowInvariant net f :=
  ⟨hf.1.1, fun j hj hjs hjt => (hf.1.2 j hj (hs ▸ hjs) (ht ▸ hjt)).symm⟩

/-- Claim C6 witness: the amended claim applied to the single-arc network and
its optimal solution. -/
theorem claim_C6_witness :
    singleArcNet.source = "s" ∧ singleArcNet.sink = "t" ∧
    MaxFlowOptSol singleArcNet (fun _ => 50) ∧
    SpecFlowInvariant singleArcNet (fun _ => 50) :=
  ⟨rfl, rfl, singleArc_optSol,
   claim_C6 singleArcNet (fun _ => 50) rfl rfl singleArc_optSol⟩

/-! ## Claim C7 -/

/-- Claim C7: `build` (modelled from the spec, which is the only place this
operation exists) fails with an `InvalidNetworkError` — and constructs no
`Network` — whenever the source equals the sink, the source or sink is absent
from the node set, an arc capacity is negative, an arc references a node
outside the node set, or a duplicate arc is supplied. -/
theorem claim_C7 (nodes : List Node) (arcs : List Arc) (capacity : Arc → ℚ)
    (source snk : Node)
    (h : source = snk ∨ source ∉ nodes ∨ snk ∉ nodes ∨
      (∃ a ∈ arcs, capacity a < 0) ∨
      (∃ a ∈ arcs, ¬(a.1 ∈ nodes ∧ a.2 ∈ nodes)) ∨ ¬ arcs.Nodup) :
    (∃ e, build nodes arcs capacity source snk = .error e) ∧
    ¬ ∃ net, build nodes arcs capacity source snk = .ok net := by
  have herr : ∃ e, build nodes arcs capacity source snk = .error e := by
    unfold build
    split_ifs with h1 h2 h3 h4 h5 h6
    all_goals try exact ⟨_, rfl⟩
    exfalso
    rcases h with h | h | h | h | h | h
    · exact h1 h
    · exact h h2
    · exact h h3
    · exact h4 h
    · exact h5 h
    · exact h h6
  refine ⟨herr, ?_⟩
  rintro ⟨net, hok⟩
  rcases herr with ⟨e, he⟩
  rw [he] at hok
  exact Except.noConfusion hok

/-- Claim C7 witness: `build` at a concrete input with `source = sink`. -/
theorem claim_C7_witness :
    ((("s" : Node) = "s" ∨ ("s" : Node) ∉ (["s"] : List Node) ∨
      ("s" : Node) ∉ (["s"] : List Node) ∨
      (∃ a ∈ ([] : List Arc), (fun _ => (0 : ℚ)) a < 0) ∨
      (∃ a ∈ ([] : List Arc), ¬(a.1 ∈ (["s"] : List Node) ∧ a.2 ∈ (["s"] : List Node))) ∨
      ¬ ([] : List Arc).Nodup)) ∧
    ((∃ e, build ["s"] [] (fun _ => 0) "s" "s" = .error e) ∧
     ¬ ∃ net, build ["s"] [] (fun _ => 0) "s" "s" = .ok net) :=
  ⟨Or.inl rfl, claim_C7 ["s"] [] (fun _ => 0) "s" "s" (Or.inl rfl)⟩

/-! ## Claim C8 -/

/-- Claim C8 counterexample: the claim fails as stated.  When the solver
reports an infeasible status, `max_flow` does not signal any error: its
post-solve step returns normally with no output (the `if m.status ==
GRB.OPTIMAL` test has no `else`), so the failure is silently ignored rather
than propagated. -/
theorem claim_C8_counterexample :
    maxFlowReport singleArcNet.arcs GRBStatus.infeasible (fun _ => 0)
      = PyOutcome.ret none ∧
    ¬ ∃ msg, maxFlowReport singleArcNet.arcs GRBStatus.infeasible (fun _ => 0)
      = PyOutcome.raised msg := by
  constructor
  · rfl
  · rintro ⟨msg, h⟩
    simp [maxFlowReport] at h

/-- Claim C8 (amended): when the external solver reports any non-optimal
status, `max_flow` and `min_cut` produce no result at all — no partial result
and no substituted default — but they also signal no error: both return
normally with no output, silently ignoring the failure. -/
theorem claim_C8 (arcs : List Arc) (capacity : Arc → ℚ) (status : GRBStatus)
    (sol : Arc → ℚ) (h : status ≠ GRBStatus.optimal) :
    maxFlowReport arcs status sol = PyOutcome.ret none ∧
    minCutReport arcs capacity status sol = PyOutcome.ret none := by
  constructor <;> simp [maxFlowReport, minCutReport, h]

/-- Claim C8 witness: the amended claim at the unbounded status. -/
theorem claim_C8_witness :
    (GRBStatus.unbounded ≠ GRBStatus.optimal) ∧
    (maxFlowReport [] GRBStatus.unbounded (fun _ => 0) = PyOutcome.ret none ∧
     minCutReport [] (fun _ => 0) GRBStatus.unbounded (fun _ => 0) = PyOutcome.ret none) :=
  ⟨by decide, claim_C8 [] (fun _ => 0) GRBStatus.unbounded (fun _ => 0) (by decide)⟩

/-! ## Claim C9 -/

/-- Claim C9: weak duality between the two LPs on the same network.  For every
valid network whose `min_cut` construction runs to completion, every feasible
flow of the LP `max_flow` builds and every feasible `(remove, connect)` pair
of the LP `min_cut` builds satisfy: the flow objective is at most the cut
objective. -/
theorem claim_C9 (net : Network) (f : Arc → ℚ) (r : Arc → ℚ) (z : Node → ℚ)
    (hval : ValidNetwork net) (hok : minCutBuildOk net = true)
    (hf : MaxFlowFeasible net f) (hrz : MinCutFeasible net r z) :
    flowObj net.arcs f ≤ cutObj net r :=
  weak_duality hval hok hf hrz

/-- Claim C9 witness: weak duality instantiated on the notebook's example
network with the explicit flow of value 180 and the explicit cut of value
180. -/
theorem claim_C9_witness :
    ValidNetwork exampleNet ∧ minCutBuildOk exampleNet = true ∧
    MaxFlowFeasible exampleNet exampleFlow ∧
    MinCutFeasible exampleNet exampleRemove exampleConnect ∧
    flowObj exampleNet.arcs exampleFlow ≤ cutObj exampleNet exampleRemove :=
  ⟨exampleNet_valid, exampleNet_buildOk, exampleFlow_feasible, exampleCut_feasible,
   claim_C9 exampleNet exampleFlow exampleRemove exampleConnect
     exampleNet_valid exampleNet_buildOk exampleFlow_feasible exampleCut_feasible⟩

/-! ## Validity of the small networks -/

lemma loopNet_valid : ValidNetwork loopNet := by
  refine ⟨by decide, by decide, by decide, ?_, by decide, by decide, by decide⟩
  simp +decide [loopNet, capOf]

lemma chainNet_valid : ValidNetwork chainNet := by
  refine ⟨by decide, by decide, by decide, ?_, by decide, by decide, by decide⟩
  simp +decide [chainNet, capOf]

lemma xyNet_valid : ValidNetwork xyNet := by
  refine ⟨by decide, by decide, by decide, ?_, by decide, by decide, by decide⟩
  simp +decide [xyNet, capOf]

lemma emptyNet_valid : ValidNetwork emptyNet := by
  refine ⟨by decide, by decide, by decide, ?_, by decide, by decide, by decide⟩
  intro a ha
  simp [emptyNet] at ha

/-! ## Claim C10 -/

/-- Claim C10 counterexample: the claim fails as stated.  `chainNet` is a
valid network whose declared source "x" is not named "s", yet the LP
`max_flow` builds for it has optimal value 7, not 0: the network also contains
a node literally named "s" with an outgoing arc, so the hard-coded objective
is not the empty sum. -/
theorem claim_C10_counterexample :
    ValidNetwork chainNet ∧ chainNet.source ≠ "s" ∧ MaxFlowOpt chainNet 7 ∧
    ¬ (∀ v, MaxFlowOpt chainNet v → v = 0) := by
  refine ⟨chainNet_valid, by decide, chainNet_maxOpt, fun hall => ?_⟩
  have := hall 7 chainNet_maxOpt
  norm_num at this

/-- Claim C10 (amended): `max_flow` and `min_cut` identify the source and sink
by the literal strings "s" and "t", not the network's declared source and
sink.  For every valid network none of whose arcs has tail "s" (in particular
any network whose node set avoids the name "s"), the objective `max_flow`
constructs is the empty sum, so every flow has objective 0 and the optimal
value is 0 regardless of arc capacities and of the declared source; likewise
the optimal value of the LP `min_cut` builds is 0, so its constraints do not
encode a cut separating the declared source from the declared sink. -/
theorem claim_C10 (net : Network) (hval : ValidNetwork net)
    (hsrc : net.source ≠ "s") (hnos : ∀ a ∈ net.arcs, a.1 ≠ "s") :
    (∀ f, flowObj net.arcs f = 0) ∧ (∀ v, MaxFlowOpt net v → v = 0) ∧
    (∀ w, MinCutOpt net w → w = 0) := by
  obtain ⟨hn, hnd, hmem, hcaps, hsrcm, hsnkm, hne⟩ := hval
  have hobj : ∀ f, flowObj net.arcs f = 0 :=
    fun f => outSum_eq_zero_of_no_tail net.arcs f "s" hnos
  refine ⟨hobj, ?_, ?_⟩
  · rintro v ⟨⟨f, hf, hfv⟩, -⟩
    rw [← hfv, hobj f]
  · rintro w ⟨hok, ⟨r, z, hrz, hrw⟩, hlow⟩
    have h0 : MinCutFeasible net (fun _ => 0) (fun _ => 0) := by
      refine ⟨fun a ha => le_refl 0, fun i hi => le_refl 0, fun a ha => ?_⟩
      rw [if_neg (hnos a ha)]
      by_cases h2 : a.2 = "t"
      · rw [if_pos h2]; norm_num
      · rw [if_neg h2]; norm_num
    have hle := hlow _ _ h0
    rw [cutObj_zero] at hle
    have hge : 0 ≤ w := by
      rw [← hrw]
      exact cutObj_nonneg hcaps hrz.1
    linarith

/-- Claim C10 witness: the amended claim applied to the two-node network with
no node named "s". -/
theorem claim_C10_witness :
    ValidNetwork xyNet ∧ xyNet.source ≠ "s" ∧ (∀ a ∈ xyNet.arcs, a.1 ≠ "s") ∧
    ((∀ f, flowObj xyNet.arcs f = 0) ∧ (∀ v, MaxFlowOpt xyNet v → v = 0) ∧
     (∀ w, MinCutOpt xyNet w → w = 0)) :=
  ⟨xyNet_valid, by decide, by decide,
   claim_C10 xyNet xyNet_valid (by decide) (by decide)⟩

/-! ## Claim C5 -/

/-- Claim C5 counterexample: the claim fails as stated.  `loopNet` is a valid
network whose sink "t" is unreachable from its source "s", yet the LP
`max_flow` builds has optimal value 10, not 0: flow circulates on the arcs
`(s,a)` and `(a,s)`, and the objective adds up flow leaving "s" without
subtracting the flow returning into "s". -/
theorem claim_C5_counterexample :
    ValidNetwork loopNet ∧ SinkUnreachable loopNet ∧ MaxFlowOpt loopNet 10 ∧
    ¬ (∀ v, MaxFlowOpt loopNet v → v = 0) := by
  refine ⟨loopNet_valid, loopNet_unreachable, loopNet_maxOpt, fun hall => ?_⟩
  have := hall 10 loopNet_maxOpt
  norm_num at this

/-- Claim C5 (amended): for every valid network whose source is named "s" and
sink is named "t", which has no arc entering the source, and whose sink is
unreachable from the source along directed arcs, the optimal value of the LP
`max_flow` builds is 0, and the optimal value of the LP `min_cut` builds is 0. -/
theorem claim_C5 (net : Network) (hval : ValidNetwork net)
    (hs : net.source = "s") (ht : net.sink = "t")
    (hnoin : ∀ a ∈ net.arcs, a.2 ≠ "s")
    (hunreach : SinkUnreachable net) :
    (∀ v, MaxFlowOpt net v → v = 0) ∧ (∀ w, MinCutOpt net w → w = 0) := by
  classical
  obtain ⟨hn, hnd, hmem, hcaps, hsrcm, hsnkm, hne⟩ := hval
  unfold SinkUnreachable at hunreach
  rw [hs, ht] at hunreach
  have hSs : ReachesBy (arcStep net.arcs) "s" "s" := ReachesBy.refl
  have hSclosed : ∀ a ∈ net.arcs, ReachesBy (arcStep net.arcs) "s" a.1 →
      ReachesBy (arcStep net.arcs) "s" a.2 := by
    intro a ha h1
    exact h1.step (show arcStep net.arcs a.1 a.2 by
      unfold arcStep
      rwa [Prod.mk.eta])
  have hflow0 : ∀ f, MaxFlowFeasible net f → flowObj net.arcs f ≤ 0 := by
    intro f hf
    rw [← flowObj_eq_weighted_sum hn
      (fun a ha => ⟨(hmem a ha).1, (hmem a ha).2.1⟩) hnoin hf.2
      (fun v => if ReachesBy (arcStep net.arcs) "s" v then 1 else 0)
      (by simp [hSs]) (by simp [hunreach])]
    have hterm : ∀ a ∈ net.arcs,
        f a * ((if ReachesBy (arcStep net.arcs) "s" a.1 then (1 : ℚ) else 0)
          - (if ReachesBy (arcStep net.arcs) "s" a.2 then 1 else 0)) ≤ 0 := by
      intro a ha
      have hf0 := (hf.1 a ha).1
      by_cases h1 : ReachesBy (arcStep net.arcs) "s" a.1
      · have h2 := hSclosed a ha h1
        simp [h1, h2]
      · by_cases h2 : ReachesBy (arcStep net.arcs) "s" a.2 <;>
          simp [h1, h2] <;> nlinarith
    calc (net.arcs.map (fun a =>
            f a * ((if ReachesBy (arcStep net.arcs) "s" a.1 then (1 : ℚ) else 0)
              - (if ReachesBy (arcStep net.arcs) "s" a.2 then 1 else 0)))).sum
        ≤ (net.arcs.map (fun _ => (0 : ℚ))).sum := list_sum_le_sum _ _ _ hterm
      _ = 0 := by simp
  constructor
  · rintro v ⟨⟨f, hf, hfv⟩, -⟩
    have h1 := hflow0 f hf
    have h2 := flowObj_nonneg hf
    rw [hfv] at h1 h2
    linarith
  · rintro w ⟨hok, ⟨r, z, hrz, hrw⟩, hlow⟩
    have hge : 0 ≤ w := by
      rw [← hrw]
      exact cutObj_nonneg hcaps hrz.1
    have hfeas0 : MinCutFeasible net (fun _ => 0)
        (fun i => if ReachesBy (arcStep net.arcs) "s" i then 1 else 0) := by
      refine ⟨fun a ha => le_refl 0, fun i hi => ?_, fun a ha => ?_⟩
      · by_cases h : ReachesBy (arcStep net.arcs) "s" i <;> simp [h]
      · by_cases h1 : a.1 = "s"
        · rw [if_pos h1]
          have h2 : ReachesBy (arcStep net.arcs) "s" a.2 :=
            hSclosed a ha (h1 ▸ hSs)
          simp [h2]
        · rw [if_neg h1]
          by_cases h2 : a.2 = "t"
          · rw [if_pos h2]
            have hna : ¬ ReachesBy (arcStep net.arcs) "s" a.1 :=
              fun hs1 => hunreach (h2 ▸ hSclosed a ha hs1)
            simp [hna]
          · rw [if_neg h2]
            by_cases h3 : ReachesBy (arcStep net.arcs) "s" a.1
            · have h4 := hSclosed a ha h3
              simp [h3, h4]
            · by_cases h4 : ReachesBy (arcStep net.arcs) "s" a.2 <;>
                simp [h3, h4]
    have hle := hlow _ _ hfeas0
    rw [cutObj_zero] at hle
    linarith

/-- Claim C5 witness: the amended claim applied to the arcless two-node
network. -/
theorem claim_C5_witness :
    ValidNetwork emptyNet ∧ emptyNet.source = "s" ∧ emptyNet.sink = "t" ∧
    (∀ a ∈ emptyNet.arcs, a.2 ≠ "s") ∧ SinkUnreachable emptyNet ∧
    ((∀ v, MaxFlowOpt emptyNet v → v = 0) ∧
     (∀ w, MinCutOpt emptyNet w → w = 0)) :=
  ⟨emptyNet_valid, rfl, rfl, by decide, emptyNet_unreachable,
   claim_C5 emptyNet emptyNet_valid rfl rfl (by decide) emptyNet_unreachable⟩

/-! ## Claim C3 -/

/-- Claim C3: on the notebook's example network, the LP `max_flow` builds has
optimal value 180 and the LP `min_cut` builds has optimal value 180; moreover
in every optimal solution of the latter the arcs selected by `remove > 0.5`
are exactly `{(A,C), (D,t)}`. -/
theorem claim_C3 (r : Arc → ℚ) (z : Node → ℚ)
    (hrz : MinCutFeasible exampleNet r z) (hobj : cutObj exampleNet r = 180) :
    MaxFlowOpt exampleNet 180 ∧ MinCutOpt exampleNet 180 ∧
    exampleNet.arcs.filter (fun a => decide ((1 : ℚ)/2 < r a))
      = [("A", "C"), ("D", "t")] := by
  refine ⟨exampleMaxOpt, exampleMinOpt, ?_⟩
  have c1 : 1 ≤ r ("s", "A") + z "A" := by
    have h := hrz.2.2 ("s", "A") (by decide)
    rw [if_pos rfl] at h
    exact h
  have c2 : 1 ≤ r ("s", "B") + z "B" := by
    have h := hrz.2.2 ("s", "B") (by decide)
    rw [if_pos rfl] at h
    exact h
  have c3 : 0 ≤ r ("A", "B") + z "B" - z "A" := by
    have h := hrz.2.2 ("A", "B") (by decide)
    rw [if_neg (by decide), if_neg (by decide)] at h
    exact h
  have c4 : 0 ≤ r ("A", "C") + z "C" - z "A" := by
    have h := hrz.2.2 ("A", "C") (by decide)
    rw [if_neg (by decide), if_neg (by decide)] at h
    exact h
  have c5 : 0 ≤ r ("B", "D") + z "D" - z "B" := by
    have h := hrz.2.2 ("B", "D") (by decide)
    rw [if_neg (by decide), if_neg (by decide)] at h
    exact h
  have c6 : 0 ≤ r ("C", "D") + z "D" - z "C" := by
    have h := hrz.2.2 ("C", "D") (by decide)
    rw [if_neg (by decide), if_neg (by decide)] at h
    exact h
  have c7 : 0 ≤ r ("C", "t") - z "C" := by
    have h := hrz.2.2 ("C", "t") (by decide)
    rw [if_neg (by decide), if_pos rfl] at h
    exact h
  have c8 : 0 ≤ r ("D", "t") - z "D" := by
    have h := hrz.2.2 ("D", "t") (by decide)
    rw [if_neg (by decide), if_pos rfl] at h
    exact h
  have l1 : 0 ≤ r ("s", "A") := hrz.1 _ (by decide)
  have l2 : 0 ≤ r ("s", "B") := hrz.1 _ (by decide)
  have l3 : 0 ≤ r ("A", "B") := hrz.1 _ (by decide)
  have l4 : 0 ≤ r ("A", "C") := hrz.1 _ (by decide)
  have l5 : 0 ≤ r ("B", "D") := hrz.1 _ (by decide)
  have l6 : 0 ≤ r ("C", "D") := hrz.1 _ (by decide)
  have l7 : 0 ≤ r ("C", "t") := hrz.1 _ (by decide)
  have l8 : 0 ≤ r ("D", "t") := hrz.1 _ (by decide)
  have z1 : 0 ≤ z "A" := hrz.2.1 "A" (by decide)
  have z2 : 0 ≤ z "B" := hrz.2.1 "B" (by decide)
  have z3 : 0 ≤ z "C" := hrz.2.1 "C" (by decide)
  have z4 : 0 ≤ z "D" := hrz.2.1 "D" (by decide)
  have hob : 100 * r ("s", "A") + 150 * r ("s", "B") + 120 * r ("A", "B")
      + 90 * r ("A", "C") + 110 * r ("B", "D") + 120 * r ("C", "D")
      + 140 * r ("C", "t") + 90 * r ("D", "t") = 180 := by
    have h := hobj
    simp +decide [cutObj, exampleNet, exampleCaps, capOf] at h
    linarith
  have bsA : ¬ ((1 : ℚ)/2 < r ("s", "A")) := by
    rw [not_lt]
    linarith
  have bsB : ¬ ((1 : ℚ)/2 < r ("s", "B")) := by
    rw [not_lt]
    linarith
  have bAB : ¬ ((1 : ℚ)/2 < r ("A", "B")) := by
    rw [not_lt]
    linarith
  have bBD : ¬ ((1 : ℚ)/2 < r ("B", "D")) := by
    rw [not_lt]
    linarith
  have bCD : ¬ ((1 : ℚ)/2 < r ("C", "D")) := by
    rw [not_lt]
    linarith
  have bCt : ¬ ((1 : ℚ)/2 < r ("C", "t")) := by
    rw [not_lt]
    linarith
  have bAC : (1 : ℚ)/2 < r ("A", "C") := by linarith
  have bDt : (1 : ℚ)/2 < r ("D", "t") := by linarith
  have e : exampleNet.arcs = [("s", "A"), ("s", "B"), ("A", "B"), ("A", "C"),
      ("B", "D"), ("C", "D"), ("C", "t"), ("D", "t")] := rfl
  rw [e]
  simp only [List.filter_cons, List.filter_nil, decide_eq_true bAC,
    decide_eq_true bDt, decide_eq_false bsA, decide_eq_false bsB,
    decide_eq_false bAB, decide_eq_false bBD, decide_eq_false bCD,
    decide_eq_false bCt]
  simp

/-- Claim C3 witness: the theorem applied to the explicit optimal cut
assignment of value 180. -/
theorem claim_C3_witness :
    MinCutFeasible exampleNet exampleRemove exampleConnect ∧
    cutObj exampleNet exampleRemove = 180 ∧
    (MaxFlowOpt exampleNet 180 ∧ MinCutOpt exampleNet 180 ∧
     exampleNet.arcs.filter (fun a => decide ((1 : ℚ)/2 < exampleRemove a))
       = [("A", "C"), ("D", "t")]) :=
  ⟨exampleCut_feasible, exampleCut_obj,
   claim_C3 exampleRemove exampleConnect exampleCut_feasible exampleCut_obj⟩

/-! ## Paths, chains and the minimum residual capacity -/

lemma listMin_mem : ∀ l : List ℚ, l ≠ [] → listMin l ∈ l
  | [], h => absurd rfl h
  | [x], _ => by simp [listMin]
  | x :: y :: l, _ => by
    rw [listMin]
    rcases min_cases x (listMin (y :: l)) with ⟨he, -⟩ | ⟨he, -⟩
    · rw [he]
      exact List.mem_cons_self x (y :: l)
    · rw [he]
      exact List.mem_cons_of_mem x (listMin_mem (y :: l) (by simp))

lemma listMin_le : ∀ l : List ℚ, ∀ x ∈ l, listMin l ≤ x
  | [], x, hx => absurd hx (by simp)
  | [y], x, hx => by
    rcases List.mem_singleton.mp hx with rfl
    exact le_refl _
  | y :: z :: l, x, hx => by
    rw [listMin]
    rcases List.mem_cons.mp hx with rfl | hx2
    · exact min_le_left _ _
    · exact le_trans (min_le_right _ _) (listMin_le (z :: l) x hx2)

lemma chain_snoc {R : Node → Node → Prop} :
    ∀ (p : List Node) (a : Node), List.Chain R a p →
      ∀ {u v : Node}, (a :: p).getLast? = some u → R u v →
        List.Chain R a (p ++ [v])
  | [], a, _, u, v, hl, r => by
    have : a = u := by simpa using hl
    subst this
    simpa using List.chain_cons.mpr ⟨r, List.Chain.nil⟩
  | b :: rest, a, hc, u, v, hl, r => by
    rcases List.chain_cons.mp hc with ⟨r1, hc2⟩
    rw [List.getLast?_cons_cons] at hl
    exact List.chain_cons.mpr ⟨r1, chain_snoc rest b hc2 hl r⟩

lemma reachesBy_path {R : Node → Node → Prop} {src v : Node}
    (h : ReachesBy R src v) :
    ∃ p : List Node, List.Chain R src p ∧ (src :: p).getLast? = some v := by
  induction h with
  | refl => exact ⟨[], List.Chain.nil, rfl⟩
  | @step u w hu r ih =>
    obtain ⟨p, hc, hl⟩ := ih
    refine ⟨p ++ [w], chain_snoc p src hc hl r, ?_⟩
    have : src :: (p ++ [w]) = (src :: p) ++ [w] := by simp
    rw [this]
    exact List.getLast?_concat _

lemma chain_pathPairs {R : Node → Node → Prop} :
    ∀ (p : List Node) (a : Node), List.Chain R a p →
      ∀ q ∈ pathPairs (a :: p), R q.1 q.2
  | [], a, _, q, hq => by simp [pathPairs] at hq
  | b :: rest, a, hc, q, hq => by
    rcases List.chain_cons.mp hc with ⟨r1, hc2⟩
    rcases List.mem_cons.mp (by simpa [pathPairs] using hq) with rfl | hq2
    · exact r1
    · exact chain_pathPairs rest b hc2 q (by simpa [pathPairs] using hq2)

lemma pathPairs_telescope (g : Node → ℚ) :
    ∀ (vs : List Node) (a b : Node), vs.head? = some a → vs.getLast? = some b →
      ((pathPairs vs).map (fun p => g p.1 - g p.2)).sum = g a - g b
  | [], a, b, ha, _ => by simp at ha
  | [x], a, b, ha, hb => by
    have h1 : a = x := by simpa using ha.symm
    have h2 : b = x := by simpa using hb.symm
    subst h1
    subst h2
    simp [pathPairs]
  | x :: y :: rest, a, b, ha, hb => by
    have h1 : a = x := by simpa using ha.symm
    subst h1
    rw [List.getLast?_cons_cons] at hb
    have ih := pathPairs_telescope g (y :: rest) y b rfl hb
    have hexp : pathPairs (a :: y :: rest) = (a, y) :: pathPairs (y :: rest) := rfl
    rw [hexp, List.map_cons, List.sum_cons, ih]
    ring

/-! ## Sums of pointwise combinations of flows -/

lemma outSum_add (arcs : List Arc) (f g : Arc → ℚ) (v : Node) :
    outSum arcs (fun a => f a + g a) v = outSum arcs f v + outSum arcs g v := by
  unfold outSum
  exact list_sum_map_add _ f g

lemma inSum_add (arcs : List Arc) (f g : Arc → ℚ) (v : Node) :
    inSum arcs (fun a => f a + g a) v = inSum arcs f v + inSum arcs g v := by
  unfold inSum
  exact list_sum_map_add _ f g

lemma outSum_zero (arcs : List Arc) (v : Node) :
    outSum arcs (fun _ => 0) v = 0 := by
  simp [outSum]

lemma inSum_zero (arcs : List Arc) (v : Node) :
    inSum arcs (fun _ => 0) v = 0 := by
  simp [inSum]

lemma outSum_single (arcs : List Arc) (hnd : arcs.Nodup) (e : Arc) (d : ℚ)
    (v : Node) :
    outSum arcs (fun a => if a = e then d else 0) v
      = if e ∈ arcs ∧ e.1 = v then d else 0 := by
  induction arcs with
  | nil => simp [outSum]
  | cons b bs ih =>
    rcases List.nodup_cons.mp hnd with ⟨hb, hbs⟩
    rw [outSum_cons]
    by_cases hbe : b = e
    · subst hbe
      have htail : outSum bs (fun a => if a = b then d else 0) v = 0 := by
        rw [ih hbs, if_neg]
        rintro ⟨hmem, -⟩
        exact hb hmem
      rw [htail, if_pos rfl]
      by_cases hv : b.1 = v
      · rw [if_pos hv, if_pos ⟨List.mem_cons_self b bs, hv⟩]
        ring
      · rw [if_neg hv, if_neg (fun h => hv h.2)]
        ring
    · have hhead : (if b.1 = v then (if b = e then d else 0) else 0) = 0 := by
        rw [if_neg hbe]
        simp
      rw [hhead, ih hbs]
      have hmemiff : (e ∈ b :: bs ∧ e.1 = v) ↔ (e ∈ bs ∧ e.1 = v) := by
        constructor
        · rintro ⟨hm, hv⟩
          rcases List.mem_cons.mp hm with rfl | hm2
          · exact absurd rfl hbe
          · exact ⟨hm2, hv⟩
        · rintro ⟨hm, hv⟩
          exact ⟨List.mem_cons_of_mem b hm, hv⟩
      by_cases hc : e ∈ bs ∧ e.1 = v
      · rw [if_pos hc, if_pos (hmemiff.mpr hc)]
        ring
      · rw [if_neg hc, if_neg (fun h => hc (hmemiff.mp h))]
        ring

lemma inSum_single (arcs : List Arc) (hnd : arcs.Nodup) (e : Arc) (d : ℚ)
    (v : Node) :
    inSum arcs (fun a => if a = e then d else 0) v
      = if e ∈ arcs ∧ e.2 = v then d else 0 := by
  induction arcs with
  | nil => simp [inSum]
  | cons b bs ih =>
    rcases List.nodup_cons.mp hnd with ⟨hb, hbs⟩
    rw [inSum_cons]
    by_cases hbe : b = e
    · subst hbe
      have htail : inSum bs (fun a => if a = b then d else 0) v = 0 := by
        rw [ih hbs, if_neg]
        rintro ⟨hmem, -⟩
        exact hb hmem
      rw [htail, if_pos rfl]
      by_cases hv : b.2 = v
      · rw [if_pos hv, if_pos ⟨List.mem_cons_self b bs, hv⟩]
        ring
      · rw [if_neg hv, if_neg (fun h => hv h.2)]
        ring
    · have hhead : (if b.2 = v then (if b = e then d else 0) else 0) = 0 := by
        rw [if_neg hbe]
        simp
      rw [hhead, ih hbs]
      have hmemiff : (e ∈ b :: bs ∧ e.2 = v) ↔ (e ∈ bs ∧ e.2 = v) := by
        constructor
        · rintro ⟨hm, hv⟩
          rcases List.mem_cons.mp hm with rfl | hm2
          · exact absurd rfl hbe
          · exact ⟨hm2, hv⟩
        · rintro ⟨hm, hv⟩
          exact ⟨List.mem_cons_of_mem b hm, hv⟩
      by_cases hc : e ∈ bs ∧ e.2 = v
      · rw [if_pos hc, if_pos (hmemiff.mpr hc)]
        ring
      · rw [if_neg hc, if_neg (fun h => hc (hmemiff.mp h))]
        ring

/-! ## Properties of the augmentation `pathDelta` -/

lemma pathDelta_outin (net : Network) (hnd : net.arcs.Nodup) (f : Arc → ℚ)
    (d : ℚ) :
    ∀ ps : List (Node × Node), (∀ p ∈ ps, resEdge net f p.1 p.2) → ∀ v : Node,
      outSum net.arcs (pathDelta net f d ps) v
        - inSum net.arcs (pathDelta net f d ps) v
      = ((ps.map (fun p => (if p.1 = v then d else 0)
          - (if p.2 = v then d else 0)))).sum
  | [], _, v => by
    simp only [pathDelta, List.map_nil, List.sum_nil]
    rw [outSum_zero, inSum_zero]
    ring
  | p :: ps, hps, v => by
    have htail : ∀ q ∈ ps, resEdge net f q.1 q.2 :=
      fun q hq => hps q (List.mem_cons_of_mem p hq)
    have ih := pathDelta_outin net hnd f d ps htail v
    by_cases hcond : p ∈ net.arcs ∧ f p < net.capacity p
    · have hexp : pathDelta net f d (p :: ps)
          = fun a => pathDelta net f d ps a + (if a = p then d else 0) := by
        funext a
        simp only [pathDelta, if_pos hcond]
      rw [hexp, outSum_add, inSum_add,
        outSum_single net.arcs hnd p d v, inSum_single net.arcs hnd p d v,
        List.map_cons, List.sum_cons]
      by_cases h1 : p.1 = v <;> by_cases h2 : p.2 = v <;>
        simp only [if_pos, if_neg, h1, h2, hcond.1, true_and, and_true,
          if_true] <;>
        simp [hcond.1, h1, h2] <;> linarith
    · have hback : (p.2, p.1) ∈ net.arcs ∧ 0 < f (p.2, p.1) := by
        rcases hps p (List.mem_cons_self p ps) with h | h
        · exact absurd (by rwa [Prod.mk.eta] at h) hcond
        · exact h
      have hexp : pathDelta net f d (p :: ps)
          = fun a => pathDelta net f d ps a + (if a = (p.2, p.1) then -d else 0) := by
        funext a
        simp only [pathDelta, if_neg hcond]
      rw [hexp, outSum_add, inSum_add,
        outSum_single net.arcs hnd (p.2, p.1) (-d) v,
        inSum_single net.arcs hnd (p.2, p.1) (-d) v,
        List.map_cons, List.sum_cons]
      have m1 : ((p.2, p.1) ∈ net.arcs ∧ (p.2, p.1).1 = v) ↔ p.2 = v := by
        simp [hback.1]
      have m2 : ((p.2, p.1) ∈ net.arcs ∧ (p.2, p.1).2 = v) ↔ p.1 = v := by
        simp [hback.1]
      rw [if_congr m1 rfl rfl, if_congr m2 rfl rfl]
      by_cases h1 : p.1 = v <;> by_cases h2 : p.2 = v <;>
        simp [h1, h2] <;> linarith [ih]

lemma pathDelta_bounds (net : Network) (f : Arc → ℚ) (d : ℚ) (hd : 0 ≤ d) :
    ∀ (ps : List (Node × Node)) (a : Arc),
      -((ps.length : ℚ) * d) ≤ pathDelta net f d ps a ∧
        pathDelta net f d ps a ≤ (ps.length : ℚ) * d
  | [], a => by simp [pathDelta]
  | p :: ps, a => by
    obtain ⟨ih1, ih2⟩ := pathDelta_bounds net f d hd ps a
    have hstep : -d ≤ (if p ∈ net.arcs ∧ f p < net.capacity p
        then (if a = p then d else 0)
        else (if a = (p.2, p.1) then -d else 0)) ∧
        (if p ∈ net.arcs ∧ f p < net.capacity p
          then (if a = p then d else 0)
          else (if a = (p.2, p.1) then -d else 0)) ≤ d := by
      by_cases hcond : p ∈ net.arcs ∧ f p < net.capacity p <;>
        [skip; skip] <;> simp only [if_pos, if_neg, hcond] <;>
        split_ifs <;> constructor <;> linarith
    simp only [pathDelta, List.length_cons]
    push_cast
    constructor <;> nlinarith [hstep.1, hstep.2]

lemma pathDelta_pos (net : Network) (f : Arc → ℚ) (d : ℚ) (hd : 0 ≤ d) :
    ∀ (ps : List (Node × Node)) (a : Arc), 0 < pathDelta net f d ps a →
      ∃ p ∈ ps, (p ∈ net.arcs ∧ f p < net.capacity p) ∧ a = p
  | [], a, h => by simp [pathDelta] at h
  | p :: ps, a, h => by
    by_cases hcond : p ∈ net.arcs ∧ f p < net.capacity p
    · by_cases hap : a = p
      · exact ⟨p, List.mem_cons_self p ps, hcond, hap⟩
      · have hstep : pathDelta net f d (p :: ps) a = pathDelta net f d ps a := by
          simp only [pathDelta, if_pos hcond, if_neg hap]
          ring
        rw [hstep] at h
        obtain ⟨q, hq, hc, he⟩ := pathDelta_pos net f d hd ps a h
        exact ⟨q, List.mem_cons_of_mem p hq, hc, he⟩
    · have hstep : pathDelta net f d ps a ≥ pathDelta net f d (p :: ps) a := by
        simp only [pathDelta, if_neg hcond]
        split_ifs <;> linarith
      obtain ⟨q, hq, hc, he⟩ := pathDelta_pos net f d hd ps a (by linarith)
      exact ⟨q, List.mem_cons_of_mem p hq, hc, he⟩

lemma pathDelta_neg (net : Network) (f : Arc → ℚ) (d : ℚ) (hd : 0 ≤ d) :
    ∀ (ps : List (Node × Node)) (a : Arc), pathDelta net f d ps a < 0 →
      ∃ p ∈ ps, ¬(p ∈ net.arcs ∧ f p < net.capacity p) ∧ a = (p.2, p.1)
  | [], a, h => by simp [pathDelta] at h
  | p :: ps, a, h => by
    by_cases hcond : p ∈ net.arcs ∧ f p < net.capacity p
    · have hstep : pathDelta net f d ps a ≤ pathDelta net f d (p :: ps) a := by
        simp only [pathDelta, if_pos hcond]
        split_ifs <;> linarith
      obtain ⟨q, hq, hc, he⟩ := pathDelta_neg net f d hd ps a (by linarith)
      exact ⟨q, List.mem_cons_of_mem p hq, hc, he⟩
    · by_cases hap : a = (p.2, p.1)
      · exact ⟨p, List.mem_cons_self p ps, hcond, hap⟩
      · have hstep : pathDelta net f d (p :: ps) a = pathDelta net f d ps a := by
          simp only [pathDelta, if_neg hcond, if_neg hap]
          ring
        rw [hstep] at h
        obtain ⟨q, hq, hc, he⟩ := pathDelta_neg net f d hd ps a h
        exact ⟨q, List.mem_cons_of_mem p hq, hc, he⟩

/-! ## Augmentation along a residual path -/

lemma augment_exists {net : Network} (hval : ValidNetwork net)
    (hok : minCutBuildOk net = true) {f : Arc → ℚ}
    (hf : MaxFlowFeasible net f)
    (hreach : ReachesBy (resEdge net f) "s" "t") :
    ∃ g, MaxFlowFeasible net g ∧ flowObj net.arcs f < flowObj net.arcs g := by
  obtain ⟨hn, hnd, hmem, hcaps, -, -, -⟩ := hval
  obtain ⟨p, hchain, hlast⟩ := reachesBy_path hreach
  have hpne : p ≠ [] := by
    rintro rfl
    simp at hlast
  set ps := pathPairs ("s" :: p) with hps_def
  have hres : ∀ q ∈ ps, resEdge net f q.1 q.2 := chain_pathPairs p "s" hchain
  have hpsne : ps ≠ [] := by
    cases p with
    | nil => exact absurd rfl hpne
    | cons x rest => simp [hps_def, pathPairs]
  have hterm_pos : ∀ q ∈ ps, 0 < stepTerm net f q := by
    intro q hq
    by_cases hcond : q ∈ net.arcs ∧ f q < net.capacity q
    · rw [stepTerm, if_pos hcond]
      linarith [hcond.2]
    · rw [stepTerm, if_neg hcond]
      rcases hres q hq with h | h
      · exact absurd (by rwa [Prod.mk.eta] at h) hcond
      · exact h.2
  set δ := listMin (ps.map (stepTerm net f)) with hdelta
  have hδ_pos : 0 < δ := by
    have hmm := listMin_mem (ps.map (stepTerm net f)) (by simpa using hpsne)
    rcases List.mem_map.mp hmm with ⟨q, hq, he⟩
    rw [hdelta, ← he]
    exact hterm_pos q hq
  have hk_pos : 0 < ((ps.length : ℕ) : ℚ) := by
    exact_mod_cast List.length_pos.mpr hpsne
  set d := δ / ((ps.length : ℕ) : ℚ) with hd
  have hd_pos : 0 < d := div_pos hδ_pos hk_pos
  have hkd : ((ps.length : ℕ) : ℚ) * d = δ := by
    rw [hd, mul_comm]
    exact div_mul_cancel₀ δ (ne_of_gt hk_pos)
  have hΔb := pathDelta_bounds net f d (le_of_lt hd_pos) ps
  have hδle : ∀ q ∈ ps, δ ≤ stepTerm net f q := by
    intro q hq
    rw [hdelta]
    exact listMin_le _ _ (List.mem_map_of_mem _ hq)
  have hbounds : ∀ a ∈ net.arcs,
      0 ≤ f a + pathDelta net f d ps a ∧
      f a + pathDelta net f d ps a ≤ net.capacity a := by
    intro a ha
    obtain ⟨hf0, hfc⟩ := hf.1 a ha
    obtain ⟨hb1, hb2⟩ := hΔb a
    constructor
    · rcases le_or_lt 0 (pathDelta net f d ps a) with h | h
      · linarith
      · obtain ⟨q, hq, hcond, he⟩ := pathDelta_neg net f d (le_of_lt hd_pos) ps a h
        have hst : stepTerm net f q = f a := by
          rw [stepTerm, if_neg hcond, he]
        have hge := hδle q hq
        rw [hst] at hge
        linarith
    · rcases le_or_lt (pathDelta net f d ps a) 0 with h | h
      · linarith
      · obtain ⟨q, hq, hcond, he⟩ := pathDelta_pos net f d (le_of_lt hd_pos) ps a h
        have hst : stepTerm net f q = net.capacity q - f q := by
          rw [stepTerm, if_pos hcond]
        have hge := hδle q hq
        rw [hst] at hge
        have hge2 : δ ≤ net.capacity a - f a := by
          rw [he]
          exact hge
        linarith
  have houtin : ∀ v, outSum net.arcs (pathDelta net f d ps) v
      - inSum net.arcs (pathDelta net f d ps) v
      = (if "s" = v then d else 0) - (if "t" = v then d else 0) := by
    intro v
    rw [pathDelta_outin net hnd f d ps hres v]
    exact pathPairs_telescope (fun u => if u = v then d else 0)
      ("s" :: p) "s" "t" rfl hlast
  have hgfeas : MaxFlowFeasible net (fun a => f a + pathDelta net f d ps a) := by
    refine ⟨hbounds, ?_⟩
    intro j hj hjs hjt
    rw [outSum_add, inSum_add]
    have h2 := houtin j
    rw [if_neg (fun h => hjs h.symm), if_neg (fun h => hjt h.symm)] at h2
    have h3 := hf.2 j hj hjs hjt
    linarith
  have hin_s : inSum net.arcs (pathDelta net f d ps) "s" = 0 :=
    inSum_eq_zero_of_no_head _ _ _ (buildOk_no_head_s hok)
  have hobj : flowObj net.arcs (fun a => f a + pathDelta net f d ps a)
      = flowObj net.arcs f + d := by
    have h2 := houtin "s"
    rw [if_pos rfl, if_neg (by decide), hin_s] at h2
    unfold flowObj
    rw [outSum_add]
    linarith
  refine ⟨_, hgfeas, ?_⟩
  rw [hobj]
  linarith

/-! ## Extracting the cut from a flow with no residual augmenting path -/

lemma path_crossing {arcs : List Arc} {S : Node → Prop} {snk : Node}
    (hsnk : ¬ S snk) :
    ∀ (vs : List Node) (src : Node), S src → vs.head? = some src →
      vs.getLast? = some snk → (∀ q ∈ pathPairs vs, q ∈ arcs) →
      ∃ q ∈ pathPairs vs, q ∈ arcs ∧ S q.1 ∧ ¬ S q.2
  | [], src, _, hh, _, _ => by simp at hh
  | [x], src, hs, hh, hl, _ => by
    have h1 : x = src := by simpa using hh
    have h2 : x = snk := by simpa using hl
    exact absurd (show S snk by rw [← h2, h1]; exact hs) hsnk
  | x :: y :: rest, src, hs, hh, hl, hmem => by
    have h1 : x = src := by simpa using hh
    have hexp : pathPairs (x :: y :: rest) = (x, y) :: pathPairs (y :: rest) := rfl
    rw [List.getLast?_cons_cons] at hl
    by_cases hy : S y
    · have ih := path_crossing hsnk (y :: rest) y hy rfl hl
        (fun q hq => hmem q (by rw [hexp]; exact List.mem_cons_of_mem _ hq))
      obtain ⟨q, hq, h⟩ := ih
      exact ⟨q, by rw [hexp]; exact List.mem_cons_of_mem _ hq, h⟩
    · refine ⟨(x, y), ?_, ?_, ?_, hy⟩
      · rw [hexp]
        exact List.mem_cons_self _ _
      · exact hmem (x, y) (by rw [hexp]; exact List.mem_cons_self _ _)
      · rw [h1]
        exact hs

lemma sum_filter_eq (l : List Arc) (p : Arc → Bool) (c : Arc → ℚ) :
    ((l.filter p).map c).sum
      = (l.map (fun a => if p a = true then c a else 0)).sum := by
  induction l with
  | nil => simp
  | cons b bs ih =>
    by_cases h : p b = true <;>
      simp [List.filter_cons, h, ih]

/-- Extraction of a minimum cut from a feasible flow whose residual graph does
not reach "t": the reachable-set cut is feasible for `min_cut`'s LP, is 0/1
valued, its objective equals the flow's objective, the arcs it selects by
`remove > 0.5` separate "s" from "t", and their total capacity equals the cut
objective. -/
lemma cut_from_no_reach {net : Network} (hval : ValidNetwork net)
    (hok : minCutBuildOk net = true) {f : Arc → ℚ}
    (hf : MaxFlowFeasible net f)
    (hnreach : ¬ ReachesBy (resEdge net f) "s" "t") :
    ∃ r z, MinCutFeasible net r z ∧ cutObj net r = flowObj net.arcs f ∧
      (∀ a ∈ net.arcs, r a = 0 ∨ r a = 1) ∧ (∀ i, z i = 0 ∨ z i = 1) ∧
      SeparatesCut net.arcs "s" "t"
        (net.arcs.filter (fun a => decide ((1 : ℚ)/2 < r a))) ∧
      ((net.arcs.filter (fun a => decide ((1 : ℚ)/2 < r a))).map
        net.capacity).sum = cutObj net r := by
  classical
  obtain ⟨hn, hnd, hmem, hcaps, -, -, -⟩ := hval
  refine ⟨fun a => if ReachesBy (resEdge net f) "s" a.1 ∧
      ¬ ReachesBy (resEdge net f) "s" a.2 then 1 else 0,
    fun i => if ReachesBy (resEdge net f) "s" i then 1 else 0, ?_, ?_, ?_, ?_, ?_, ?_⟩
  · refine ⟨fun a ha => ?_, fun i hi => ?_, fun a ha => ?_⟩
    · beta_reduce
      split_ifs <;> norm_num
    · beta_reduce
      split_ifs <;> norm_num
    · beta_reduce
      by_cases h1 : a.1 = "s"
      · rw [if_pos h1]
        by_cases h2 : ReachesBy (resEdge net f) "s" a.2
        · rw [if_pos h2]
          split_ifs <;> norm_num
        · rw [if_neg h2, if_pos ⟨by rw [h1]; exact ReachesBy.refl, h2⟩]
          norm_num
      · rw [if_neg h1]
        by_cases h2 : a.2 = "t"
        · rw [if_pos h2]
          by_cases h3 : ReachesBy (resEdge net f) "s" a.1
          · have h4 : ¬ ReachesBy (resEdge net f) "s" a.2 := by
              rw [h2]
              exact hnreach
            rw [if_pos ⟨h3, h4⟩, if_pos h3]
            norm_num
          · rw [if_neg h3]
            split_ifs <;> norm_num
        · rw [if_neg h2]
          by_cases h3 : ReachesBy (resEdge net f) "s" a.1
          · by_cases h4 : ReachesBy (resEdge net f) "s" a.2
            · rw [if_pos h4, if_pos h3, if_neg (fun hc => hc.2 h4)]
              norm_num
            · rw [if_neg h4, if_pos h3, if_pos ⟨h3, h4⟩]
              norm_num
          · rw [if_neg h3]
            split_ifs <;> norm_num
  · have key : ∀ a ∈ net.arcs,
        net.capacity a * (if ReachesBy (resEdge net f) "s" a.1 ∧
          ¬ ReachesBy (resEdge net f) "s" a.2 then (1 : ℚ) else 0)
        = f a * ((if ReachesBy (resEdge net f) "s" a.1 then (1 : ℚ) else 0)
          - (if ReachesBy (resEdge net f) "s" a.2 then 1 else 0)) := by
      intro a ha
      obtain ⟨hf0, hfc⟩ := hf.1 a ha
      by_cases h1 : ReachesBy (resEdge net f) "s" a.1
      · by_cases h2 : ReachesBy (resEdge net f) "s" a.2
        · rw [if_neg (fun hc => hc.2 h2), if_pos h1, if_pos h2]
          ring
        · have hsat : f a = net.capacity a := by
            rcases lt_or_eq_of_le hfc with hlt | heq
            · exact absurd (h1.step (Or.inl ⟨ha, hlt⟩)) h2
            · exact heq
          rw [if_pos ⟨h1, h2⟩, if_pos h1, if_neg h2, hsat]
          ring
      · by_cases h2 : ReachesBy (resEdge net f) "s" a.2
        · have hzero : f a = 0 := by
            rcases lt_or_eq_of_le hf0 with hlt | heq
            · exact absurd (h2.step (Or.inr ⟨ha, hlt⟩)) h1
            · exact heq.symm
          rw [if_neg (fun hc => h1 hc.1), if_neg h1, if_pos h2, hzero]
          ring
        · rw [if_neg (fun hc => h1 hc.1), if_neg h1, if_neg h2]
          ring
    calc cutObj net (fun a => if ReachesBy (resEdge net f) "s" a.1 ∧
            ¬ ReachesBy (resEdge net f) "s" a.2 then 1 else 0)
        = (net.arcs.map (fun a =>
            f a * ((if ReachesBy (resEdge net f) "s" a.1 then (1 : ℚ) else 0)
              - (if ReachesBy (resEdge net f) "s" a.2 then 1 else 0)))).sum := by
          unfold cutObj
          congr 1
          exact List.map_congr_left key
      _ = flowObj net.arcs f :=
          flowObj_eq_weighted_sum hn
            (fun a ha => ⟨(hmem a ha).1, (hmem a ha).2.1⟩)
            (buildOk_no_head_s hok) hf.2
            (fun u => if ReachesBy (resEdge net f) "s" u then (1 : ℚ) else 0)
            (if_pos ReachesBy.refl) (if_neg hnreach)
  · intro a ha
    beta_reduce
    split_ifs <;> simp
  · intro i
    beta_reduce
    split_ifs <;> simp
  · intro vs hpath
    obtain ⟨hh, hl, hpm⟩ := hpath
    have hcross := path_crossing hnreach vs "s" ReachesBy.refl hh hl hpm
    obtain ⟨q, hq, hqa, hq1, hq2⟩ := hcross
    refine ⟨q, hq, ?_⟩
    rw [List.mem_filter]
    refine ⟨hqa, ?_⟩
    beta_reduce
    rw [if_pos ⟨hq1, hq2⟩]
    norm_num
  · rw [sum_filter_eq]
    unfold cutObj
    congr 1
    refine List.map_congr_left (fun a ha => ?_)
    beta_reduce
    by_cases hc : ReachesBy (resEdge net f) "s" a.1 ∧
        ¬ ReachesBy (resEdge net f) "s" a.2
    · rw [if_pos hc]
      rw [if_pos (by norm_num)]
      ring
    · rw [if_neg hc]
      rw [if_neg (by norm_num)]
      ring

/-! ## Optimal values of the two-node network without "s" or "t" -/

lemma xyNet_maxOpt : MaxFlowOpt xyNet 0 := by
  constructor
  · refine ⟨fun _ => 0, ⟨?_, ?_⟩, ?_⟩
    · simp +decide [xyNet, capOf]
    · intro j hj hjs hjt
      rw [outSum_zero, inSum_zero]
    · exact outSum_zero _ _
  · intro f hf
    rw [flowObj, outSum_eq_zero_of_no_tail xyNet.arcs f "s" (by decide)]

lemma xyNet_minOpt : MinCutOpt xyNet 0 := by
  refine ⟨by decide, ⟨fun _ => 0, fun _ => 0, ?_, cutObj_zero xyNet⟩, ?_⟩
  · refine ⟨fun a ha => le_refl 0, fun i hi => le_refl 0, fun a ha => ?_⟩
    have ha2 : a = ("x", "y") := by
      simpa [xyNet] using ha
    subst ha2
    rw [if_neg (by decide), if_neg (by decide)]
    norm_num
  · intro r z hrz
    refine cutObj_nonneg (fun a ha => ?_) hrz.1
    have ha2 : a = ("x", "y") := by
      simpa [xyNet] using ha
    subst ha2
    simp +decide [xyNet, capOf]

/-! ## Claim C1 -/

/-- Claim C1: for every valid network, whenever the LP `max_flow` builds has
an optimal objective value and the LP `min_cut` builds has an optimal
objective value, the two values are exactly equal (max-flow/min-cut duality
for the pair of LPs the notebook constructs). -/
theorem claim_C1 (net : Network) (v w : ℚ) (hval : ValidNetwork net)
    (hmax : MaxFlowOpt net v) (hmin : MinCutOpt net w) : v = w := by
  obtain ⟨⟨f, hf, hfv⟩, hub⟩ := hmax
  obtain ⟨hok, ⟨r, z, hrz, hrw⟩, hlow⟩ := hmin
  have h1 : v ≤ w := by
    rw [← hfv, ← hrw]
    exact weak_duality hval hok hf hrz
  have h2 : w ≤ v := by
    by_cases hreach : ReachesBy (resEdge net f) "s" "t"
    · obtain ⟨g, hg, hlt⟩ := augment_exists hval hok hf hreach
      have hle := hub g hg
      rw [hfv] at hlt
      linarith
    · obtain ⟨r2, z2, hr2, hval2, -, -, -, -⟩ :=
        cut_from_no_reach hval hok hf hreach
      have hle := hlow r2 z2 hr2
      rw [hval2, hfv] at hle
      exact hle
  linarith

/-- Claim C1 witness: the equality at the notebook's example network, where
both optimal values are 180. -/
theorem claim_C1_witness :
    ValidNetwork exampleNet ∧ MaxFlowOpt exampleNet 180 ∧
    MinCutOpt exampleNet 180 ∧ (180 : ℚ) = 180 :=
  ⟨exampleNet_valid, exampleMaxOpt, exampleMinOpt,
   claim_C1 exampleNet 180 180 exampleNet_valid exampleMaxOpt exampleMinOpt⟩

/-! ## Claim C2 -/

/-- Claim C2 counterexample: the claim fails as stated.  `xyNet` is a valid
network (source "x", sink "y", one arc `(x,y)` of capacity 5) whose min-cut
LP has optimal value 0; every optimal solution has `remove = 0` on the only
arc, so the arcs selected by `remove > 0.5` are none, and the empty set does
not separate the declared source from the declared sink — the arc `(x,y)`
is a path from "x" to "y".  The hard-coded "s"/"t" constraints do not encode
a cut for this network. -/
theorem claim_C2_counterexample :
    ValidNetwork xyNet ∧ MaxFlowOpt xyNet 0 ∧ MinCutOpt xyNet 0 ∧
    ¬ ∃ r z, MinCutFeasible xyNet r z ∧ cutObj xyNet r = 0 ∧
      SeparatesCut xyNet.arcs xyNet.source xyNet.sink
        (xyNet.arcs.filter (fun a => decide ((1 : ℚ)/2 < r a))) := by
  refine ⟨xyNet_valid, xyNet_maxOpt, xyNet_minOpt, ?_⟩
  rintro ⟨r, z, hrz, hobj0, hsep⟩
  have hr0 : r ("x", "y") = 0 := by
    have h := hobj0
    simp +decide [cutObj, xyNet, capOf] at h
    have hrnn := hrz.1 ("x", "y") (by decide)
    linarith
  have hno : ¬ ((1 : ℚ)/2 < r ("x", "y")) := by
    rw [hr0]
    norm_num
  have hsel : xyNet.arcs.filter (fun a => decide ((1 : ℚ)/2 < r a)) = [] := by
    have e : xyNet.arcs = [("x", "y")] := rfl
    rw [e]
    simp only [List.filter_cons, List.filter_nil, decide_eq_false hno]
    simp
  have hpath : IsArcPath xyNet.arcs xyNet.source xyNet.sink ["x", "y"] := by
    refine ⟨rfl, rfl, ?_⟩
    intro q hq
    have : q = ("x", "y") := by
      simpa [pathPairs] using hq
    rw [this]
    exact List.mem_cons_self _ _
  obtain ⟨q, hq, hqmem⟩ := hsep _ hpath
  rw [hsel] at hqmem
  simp at hqmem

/-- Claim C2 (amended): for every valid network whose source is named "s" and
sink is named "t", whenever both LPs attain optimal values, the LP `min_cut`
builds attains an optimal solution in which every `remove` and `connect`
value is 0 or 1, and the set of arcs whose `remove` value exceeds 0.5 in that
solution is a cut separating source from sink whose total capacity equals the
optimal objective value. -/
theorem claim_C2 (net : Network) (v w : ℚ) (hval : ValidNetwork net)
    (hs : net.source = "s") (ht : net.sink = "t")
    (hmax : MaxFlowOpt net v) (hmin : MinCutOpt net w) :
    ∃ r z, MinCutFeasible net r z ∧ cutObj net r = w ∧
      (∀ a ∈ net.arcs, r a = 0 ∨ r a = 1) ∧ (∀ i, z i = 0 ∨ z i = 1) ∧
      SeparatesCut net.arcs net.source net.sink
        (net.arcs.filter (fun a => decide ((1 : ℚ)/2 < r a))) ∧
      ((net.arcs.filter (fun a => decide ((1 : ℚ)/2 < r a))).map
        net.capacity).sum = w := by
  obtain ⟨⟨f, hf, hfv⟩, hub⟩ := hmax
  obtain ⟨hok, ⟨r0, z0, hrz0, hrw0⟩, hlow⟩ := hmin
  have hnreach : ¬ ReachesBy (resEdge net f) "s" "t" := by
    intro hreach
    obtain ⟨g, hg, hlt⟩ := augment_exists hval hok hf hreach
    have hle := hub g hg
    rw [hfv] at hlt
    linarith
  obtain ⟨r, z, hrz, hval2, h01r, h01z, hsep, hsum⟩ :=
    cut_from_no_reach hval hok hf hnreach
  have h3 : cutObj net r = v := by
    rw [hval2, hfv]
  have hvw : cutObj net r = w := by
    have h1 : v ≤ w := by
      rw [← hfv, ← hrw0]
      exact weak_duality hval hok hf hrz0
    have h2 : w ≤ cutObj net r := hlow r z hrz
    rw [h3]
    rw [h3] at h2
    linarith
  refine ⟨r, z, hrz, hvw, h01r, h01z, ?_, ?_⟩
  · rw [hs, ht]
    exact hsep
  · rw [hsum, hvw]

/-- Claim C2 witness: the amended claim at the notebook's example network. -/
theorem claim_C2_witness :
    ValidNetwork exampleNet ∧ exampleNet.source = "s" ∧ exampleNet.sink = "t" ∧
    MaxFlowOpt exampleNet 180 ∧ MinCutOpt exampleNet 180 ∧
    (∃ r z, MinCutFeasible exampleNet r z ∧ cutObj exampleNet r = 180 ∧
      (∀ a ∈ exampleNet.arcs, r a = 0 ∨ r a = 1) ∧
      (∀ i, z i = 0 ∨ z i = 1) ∧
      SeparatesCut exampleNet.arcs exampleNet.source exampleNet.sink
        (exampleNet.arcs.filter (fun a => decide ((1 : ℚ)/2 < r a))) ∧
      ((exampleNet.arcs.filter (fun a => decide ((1 : ℚ)/2 < r a))).map
        exampleNet.capacity).sum = 180) :=
  ⟨exampleNet_valid, rfl, rfl, exampleMaxOpt, exampleMinOpt,
   claim_C2 exampleNet 180 180 exampleNet_valid rfl rfl
     exampleMaxOpt exampleMinOpt⟩
